import Mathlib

/-! # SmartUltrasonic: a non-blocking pulse-echo ranging driver

Shallow embedding of `SmartUltrasonic.h` / `SmartUltrasonic.cpp`.

Conventions of the embedding.

* The driver object and the global `EEPROM` object form one record, `SmartUltrasonic`;
  every member function becomes a function on that record.  A member function that
  returns a value and writes members returns a pair (value, new record).
* `unsigned long` values are naturals; the one arithmetic operation the driver does on
  them, subtraction, is taken modulo `2^32` (`usub`).
* `int` values are integers; `%` on them is the truncated remainder of C (`Int.tmod`).
* `float` values are rationals.  Where the driver compares the result of float arithmetic
  against a threshold of the estimator (`calculateStdDev`, `verifyLastPrediction`), every
  operation is rounded to binary32, to nearest with ties to even (`fl32`, `sqrt32`), and
  every float variable is read as the binary32 value it holds.  Elsewhere the arithmetic
  is exact.  A standard deviation is handed on as a `Root`, the root of its square.
* The platform services are inputs: a call that reads `millis()` or `micros()` takes the
  clock value as an argument (one clock value for the whole call), `handleInterrupt`
  takes the level of the echo pin.  Writes to the trigger pin are not part of the record.
-/

/-! ## Configuration defaults (`SmartUltrasonic.h`) -/

/-- Source constant `DEFAULT_SENSOR_TIMEOUT_MS`. -/
abbrev DEFAULT_SENSOR_TIMEOUT_MS : Nat := 35
/-- Source constant `DEFAULT_STATIC_RETRY_MS`. -/
abbrev DEFAULT_STATIC_RETRY_MS : Nat := 500
/-- Source constant `DEFAULT_EEPROM_BUFFER_SIZE`. -/
abbrev DEFAULT_EEPROM_BUFFER_SIZE : Int := 250
/-- Source constant `DEFAULT_RAM_BUFFER_SIZE`. -/
abbrev DEFAULT_RAM_BUFFER_SIZE : Int := 8
/-- Source constant `DEFAULT_EEPROM_WRITE_INTERVAL`. -/
abbrev DEFAULT_EEPROM_WRITE_INTERVAL : Int := 10
/-- Source constant `DEFAULT_EEPROM_SCALE_FACTOR`. -/
abbrev DEFAULT_EEPROM_SCALE_FACTOR : ℚ := 2
/-- Source constant `DEFAULT_MOVEMENT_VERIFY_DIST`. -/
abbrev DEFAULT_MOVEMENT_VERIFY_DIST : ℚ := 10
/-- Source constant `DEFAULT_VERIFY_TOLERANCE`. -/
abbrev DEFAULT_VERIFY_TOLERANCE : ℚ := 3

/-! ## Types -/

/-- Source `struct SensorReading`. -/
structure SensorReading where
  distance : ℚ
  confidence : Int
  isPredicted : Bool
  isVerified : Bool
  deriving DecidableEq

/-- Source `enum class SensorState`. -/
inductive SensorState where
  | IDLE
  | TRIGGERED
  | MEASURING
  | DONE
  | AWAITING_RETRY
  deriving DecidableEq

/-- Subtraction of two `unsigned long` values: the difference modulo `2^32`. -/
def usub (a b : Nat) : Nat := (((a : Int) - (b : Int)) % 4294967296).toNat

/-- The value `sqrt(radicand)` of a non-negative rational, kept by its radicand; a
non-negative value `r` is the root of `r * r`. -/
structure Root where
  radicand : ℚ
  deriving DecidableEq

/-- The comparison `sqrt(radicand) < k` for a non-negative bound `k`, decided on squares. -/
def Root.lt (x : Root) (k : ℚ) : Prop := x.radicand < k * k

instance (x : Root) (k : ℚ) : Decidable (x.lt k) :=
  inferInstanceAs (Decidable (x.radicand < k * k))

/-- Modelled from the spec: the Arduino macro `constrain(amt, low, high)`, which is not
in the repository; it clamps `amt` into the range `[low, high]`. -/
def constrain (amt low high : ℚ) : ℚ :=
  if amt < low then low else if amt > high then high else amt

/-- Modelled from the spec: the library function `round`, which is not in the repository;
it rounds to the nearest integer, a half going away from zero. -/
def round_c (x : ℚ) : Int :=
  if 0 ≤ x then ⌊x + 1 / 2⌋ else ⌈x - 1 / 2⌉

/-- The cast `(byte)z`: the integer reduced modulo 256. -/
def toByte (z : Int) : Fin 256 := ⟨(z % 256).toNat, by omega⟩

/-! ## Binary32 arithmetic -/

/-- The binary logarithm of a natural number, rounded down, by repeated halving; the first
argument bounds the number of halvings. -/
def log2Aux : Nat → Nat → Nat
  | 0, _ => 0
  | fuel + 1, n => if n < 2 then 0 else log2Aux fuel (n / 2) + 1

/-- The binary logarithm of a natural number, rounded down (0 for 0 and 1). -/
def natLog2 (n : Nat) : Nat := log2Aux n n

/-- The square root of a natural number, rounded down, found bit by bit from the highest
bit; the second argument is the number of bits still to decide. -/
def sqrtAux (n : Nat) : Nat → Nat → Nat
  | 0, acc => acc
  | bit + 1, acc =>
    sqrtAux n bit (if (acc + 2 ^ bit) * (acc + 2 ^ bit) ≤ n then acc + 2 ^ bit else acc)

/-- The square root of a natural number, rounded down. -/
def natSqrt (n : Nat) : Nat := sqrtAux n (natLog2 n / 2 + 1) 0

/-- The power `2 ^ e` for an integer exponent. -/
def pow2 (e : Int) : ℚ :=
  if 0 ≤ e then ((2 ^ e.toNat : Nat) : ℚ) else 1 / ((2 ^ (-e).toNat : Nat) : ℚ)

/-- The binary exponent of a positive rational `x`: the `e` with `2 ^ e ≤ x < 2 ^ (e + 1)`. -/
def ilog2 (x : ℚ) : Int :=
  let e0 : Int := (natLog2 x.num.natAbs : Int) - (natLog2 x.den : Int)
  if pow2 e0 ≤ x then e0 else e0 - 1

/-- The integer nearest to a rational, a tie going to the even neighbour. -/
def roundHalfEven (x : ℚ) : Int :=
  if x - ⌊x⌋ < 1 / 2 then ⌊x⌋
  else if 1 / 2 < x - ⌊x⌋ then ⌊x⌋ + 1
  else if ⌊x⌋ % 2 = 0 then ⌊x⌋ else ⌊x⌋ + 1

/-- Rounding to binary32: the nearest number with a 24-bit significand, a tie going to the
even significand.  The exponent range is not bounded: no overflow or underflow arises at
the magnitudes the driver handles. -/
def fl32 (x : ℚ) : ℚ :=
  if x = 0 then 0
  else (roundHalfEven (x / pow2 (ilog2 |x| - 23)) : ℚ) * pow2 (ilog2 |x| - 23)

/-- The library function `sqrt` on binary32: the square root rounded to binary32.  The
result has the exponent `⌊e / 2⌋` for `e` the exponent of `x`; its significand is the
integer nearest to the root of `x` scaled by the unit in the last place.  It is 0 for
`x ≤ 0`; the driver takes the root of a mean of squares only. -/
def sqrt32 (x : ℚ) : ℚ :=
  if x ≤ 0 then 0
  else
    let q : ℚ := pow2 (ilog2 x / 2 - 23)
    let y : ℚ := x / (q * q)
    let m0 : Nat := natSqrt ⌊y⌋.toNat
    let h : ℚ := ((m0 : ℚ) + 1 / 2) * ((m0 : ℚ) + 1 / 2)
    let m : Nat :=
      if y < h then m0 else if h < y then m0 + 1 else if m0 % 2 = 0 then m0 else m0 + 1
    (m : ℚ) * q

/-- Source `class SmartUltrasonic`, together with the cells of the global `EEPROM`. -/
structure SmartUltrasonic where
  _trigPin : Nat
  _echoPin : Nat
  _isMobile : Bool
  _eepromStartAddr : Int
  _state : SensorState
  _startTime : Nat
  _duration : Nat
  _lastEventTime : Nat
  _lastPrediction : ℚ
  _ramBuffer : Int → ℚ
  _ramBufferIndex : Int
  _ramBufferFull : Bool
  _eepromHeadPtr : Int
  _writeCounter : Int
  EEPROM : Int → Fin 256

namespace SmartUltrasonic

/-- Source constructor `SmartUltrasonic::SmartUltrasonic` with the default member
initialisers of the class; `_ramBuffer` has none, so its contents are an argument, and so
are the cells of the persistent store. -/
def ctor (trigPin echoPin : Nat) (isMobileSystem : Bool) (eepromAddr : Int)
    (ram : Int → ℚ) (cells : Int → Fin 256) : SmartUltrasonic :=
  { _trigPin := trigPin
    _echoPin := echoPin
    _isMobile := isMobileSystem
    _eepromStartAddr := eepromAddr
    _state := SensorState.IDLE
    _startTime := 0
    _duration := 0
    _lastEventTime := 0
    _lastPrediction := 0
    _ramBuffer := ram
    _ramBufferIndex := 0
    _ramBufferFull := false
    _eepromHeadPtr := 0
    _writeCounter := 0
    EEPROM := cells }

/-- Source `SmartUltrasonic::startMeasurement`; `now` is the value of `millis()`. -/
def startMeasurement (now : Nat) (s : SmartUltrasonic) : SmartUltrasonic :=
  if s._state ≠ SensorState.IDLE ∧ s._state ≠ SensorState.DONE then s
  else { s with _lastEventTime := now, _state := SensorState.TRIGGERED }

/-- Source `SmartUltrasonic::update`; `now` is the value of `millis()`. -/
def update (now : Nat) (s : SmartUltrasonic) : SmartUltrasonic :=
  let s1 :=
    if (s._state = SensorState.TRIGGERED ∨ s._state = SensorState.MEASURING)
        ∧ usub now s._lastEventTime > DEFAULT_SENSOR_TIMEOUT_MS then
      { s with _duration := 0, _state := SensorState.DONE }
    else s
  if s1._state = SensorState.AWAITING_RETRY
      ∧ usub now s1._lastEventTime > DEFAULT_STATIC_RETRY_MS then
    startMeasurement now s1
  else s1

/-- Source `SmartUltrasonic::handleInterrupt`; `echo` is `digitalRead(_echoPin)` and
`us` is the value of `micros()`. -/
def handleInterrupt (echo : Bool) (us : Nat) (s : SmartUltrasonic) : SmartUltrasonic :=
  if echo then
    if s._state = SensorState.TRIGGERED then
      { s with _startTime := us, _state := SensorState.MEASURING }
    else s
  else
    if s._state = SensorState.MEASURING then
      { s with _duration := usub us s._startTime, _state := SensorState.DONE }
    else s

/-- Source `SmartUltrasonic::verifyLastPrediction`, in binary32 arithmetic: the argument and
`_lastPrediction` are read as binary32 values, the sum and the difference are rounded. -/
def verifyLastPrediction (newMeasurement : ℚ) (s : SmartUltrasonic) : Bool :=
  decide (|fl32 (fl32 newMeasurement
      - fl32 (fl32 s._lastPrediction + DEFAULT_MOVEMENT_VERIFY_DIST))|
    < DEFAULT_VERIFY_TOLERANCE)

/-- Source `SmartUltrasonic::writeToEEPROM`. -/
def writeToEEPROM (value : ℚ) (s : SmartUltrasonic) : SmartUltrasonic :=
  let comp : Fin 256 := toByte (round_c (value / DEFAULT_EEPROM_SCALE_FACTOR))
  let e1 := Function.update s.EEPROM (s._eepromStartAddr + 1 + s._eepromHeadPtr) comp
  let head := Int.tmod (s._eepromHeadPtr + 1) DEFAULT_EEPROM_BUFFER_SIZE
  { s with _eepromHeadPtr := head
           EEPROM := Function.update e1 s._eepromStartAddr (toByte head) }

/-- Source `SmartUltrasonic::loadFromEEPROM`; the `for` loop runs `i` over `0..7`. -/
def loadFromEEPROM (s : SmartUltrasonic) : SmartUltrasonic :=
  let head0 : Int := ((s.EEPROM s._eepromStartAddr).val : Int)
  let head : Int := if head0 ≥ DEFAULT_EEPROM_BUFFER_SIZE then 0 else head0
  let ram := (List.range DEFAULT_RAM_BUFFER_SIZE.toNat).foldl
    (fun (buf : Int → ℚ) (i : Nat) =>
      let addr := Int.tmod (head - 1 - (i : Int) + DEFAULT_EEPROM_BUFFER_SIZE)
        DEFAULT_EEPROM_BUFFER_SIZE
      let rawVal : Fin 256 := s.EEPROM (s._eepromStartAddr + 1 + addr)
      Function.update buf (DEFAULT_RAM_BUFFER_SIZE - 1 - (i : Int))
        ((rawVal.val : ℚ) * DEFAULT_EEPROM_SCALE_FACTOR))
    s._ramBuffer
  { s with _eepromHeadPtr := head
           _ramBuffer := ram
           _ramBufferIndex := 0
           _ramBufferFull := true }

/-- Source `SmartUltrasonic::begin`; the pin modes are not part of the record. -/
def begin (s : SmartUltrasonic) : SmartUltrasonic := loadFromEEPROM s

/-- Source `SmartUltrasonic::updateBuffers`. -/
def updateBuffers (validReading : ℚ) (s : SmartUltrasonic) : SmartUltrasonic :=
  let idx := Int.tmod (s._ramBufferIndex + 1) DEFAULT_RAM_BUFFER_SIZE
  let s1 : SmartUltrasonic :=
    { s with _ramBuffer := Function.update s._ramBuffer s._ramBufferIndex validReading
             _ramBufferIndex := idx
             _ramBufferFull := if !s._ramBufferFull ∧ idx = 0 then true else s._ramBufferFull }
  let wc := s1._writeCounter + 1
  if wc ≥ DEFAULT_EEPROM_WRITE_INTERVAL then
    { writeToEEPROM validReading { s1 with _writeCounter := wc } with _writeCounter := 0 }
  else { s1 with _writeCounter := wc }

/-- Source `SmartUltrasonic::calculateStdDev`, in binary32 arithmetic; each `for` loop runs
`i` over `0..c-1`.  Every slot is read as the binary32 value it holds; the running sum, the
mean, each difference, each square (`pow(x, 2)`), the running sum of squares, the quotient
by `c` and the square root are rounded to binary32.  The result `r` is returned as the root
of `r * r`. -/
def calculateStdDev (s : SmartUltrasonic) : Root :=
  let c : Int := if s._ramBufferFull then DEFAULT_RAM_BUFFER_SIZE else s._ramBufferIndex
  if c < 2 then ⟨0⟩
  else
    let sum : ℚ := (List.range c.toNat).foldl
      (fun (acc : ℚ) (i : Nat) => fl32 (acc + fl32 (s._ramBuffer (i : Int)))) 0
    let mean : ℚ := fl32 (sum / (c : ℚ))
    let sq : ℚ := (List.range c.toNat).foldl
      (fun (acc : ℚ) (i : Nat) =>
        fl32 (acc + fl32 (fl32 (fl32 (s._ramBuffer (i : Int)) - mean) ^ 2))) 0
    let r : ℚ := sqrt32 (fl32 (sq / (c : ℚ)))
    ⟨r * r⟩

/-- Source `calculateConfidence`. -/
def calculateConfidence (stdDev : Root) : Int :=
  if stdDev.lt 1 then 90
  else if stdDev.lt 5 then 75
  else if stdDev.lt 10 then 60
  else 40

/-- Source `SmartUltrasonic::predictValue`. -/
def predictValue (s : SmartUltrasonic) : SensorReading × SmartUltrasonic :=
  if !s._ramBufferFull ∧ s._ramBufferIndex < 2 then
    ({ distance := 450, confidence := 0, isPredicted := true, isVerified := false }, s)
  else
    let d_c := s._ramBuffer
      (Int.tmod (s._ramBufferIndex - 1 + DEFAULT_RAM_BUFFER_SIZE) DEFAULT_RAM_BUFFER_SIZE)
    let d_p := s._ramBuffer
      (Int.tmod (s._ramBufferIndex - 2 + DEFAULT_RAM_BUFFER_SIZE) DEFAULT_RAM_BUFFER_SIZE)
    let s1 : SmartUltrasonic := { s with _lastPrediction := constrain (d_c + (d_c - d_p)) 2 450 }
    let conf := calculateConfidence (calculateStdDev s1)
    ({ distance := s1._lastPrediction, confidence := conf, isPredicted := true,
       isVerified := false }, s1)

/-- Source `SmartUltrasonic::getReading`; `now` is the value of `millis()`. -/
def getReading (now : Nat) (s : SmartUltrasonic) : SensorReading × SmartUltrasonic :=
  if s._state ≠ SensorState.DONE then
    ({ distance := 0, confidence := 0, isPredicted := false, isVerified := false }, s)
  else
    let duration : Nat := s._duration
    let distance : ℚ := (duration : ℚ) * 0.0343 / 2.0
    if duration = 0 ∨ distance > 450 ∨ distance < 2 then
      let p := predictValue s
      if !s._isMobile then
        (p.1, { p.2 with _state := SensorState.AWAITING_RETRY, _lastEventTime := now })
      else
        (p.1, { p.2 with _state := SensorState.IDLE })
    else
      (⟨distance, 100, false, false⟩,
        { updateBuffers distance s with _state := SensorState.IDLE })

/-- Source `SmartUltrasonic::isReady`. -/
def isReady (s : SmartUltrasonic) : Bool := decide (s._state = SensorState.DONE)

/-- Source `SmartUltrasonic::isMobile`. -/
def isMobile (s : SmartUltrasonic) : Bool := s._isMobile

/-! ## Runs of calls -/

/-- One call of the public surface, with the platform inputs the call reads. -/
inductive Op where
  | begin
  | startMeasurement (now : Nat)
  | update (now : Nat)
  | handleInterrupt (echo : Bool) (us : Nat)
  | getReading (now : Nat)
  | verifyLastPrediction (newMeasurement : ℚ)

/-- The driver record after one call. -/
def step (o : Op) (s : SmartUltrasonic) : SmartUltrasonic :=
  match o with
  | Op.begin => begin s
  | Op.startMeasurement now => startMeasurement now s
  | Op.update now => update now s
  | Op.handleInterrupt echo us => handleInterrupt echo us s
  | Op.getReading now => (getReading now s).2
  | Op.verifyLastPrediction _ => s

/-- The driver record after a sequence of calls, first call first. -/
def run (ops : List Op) (s : SmartUltrasonic) : SmartUltrasonic :=
  ops.foldl (fun st o => step o st) s

/-- The driver record after a sequence of ticks, first tick first. -/
def updates (ts : List Nat) (s : SmartUltrasonic) : SmartUltrasonic :=
  ts.foldl (fun st t => update t st) s

/-- The driver record after committing a sequence of valid readings through
`updateBuffers`, first reading first. -/
def pushAll (vs : List ℚ) (s : SmartUltrasonic) : SmartUltrasonic :=
  vs.foldl (fun st v => updateBuffers v st) s

/-! ## The statistics of the estimator, in the words of the specification -/

/-- The arithmetic mean of a list of samples. -/
def mean (xs : List ℚ) : ℚ := xs.sum / (xs.length : ℚ)

/-- The values `updateBuffers` hands to `writeToEEPROM` in one call: the reading when the
write branch of the source is taken (`++_writeCounter >= DEFAULT_EEPROM_WRITE_INTERVAL`),
nothing otherwise. -/
def updateBuffersWrites (validReading : ℚ) (s : SmartUltrasonic) : List ℚ :=
  if s._writeCounter + 1 ≥ DEFAULT_EEPROM_WRITE_INTERVAL then [validReading] else []

/-- The values handed to `writeToEEPROM`, in order, while a sequence of readings is
committed through `updateBuffers`, first reading first. -/
def pushAllWrites : List ℚ → SmartUltrasonic → List ℚ
  | [], _ => []
  | v :: vs, s => updateBuffersWrites v s ++ pushAllWrites vs (updateBuffers v s)

/-- The driver record after a sequence of `writeToEEPROM` calls, first value first. -/
def writeAll (xs : List ℚ) (s : SmartUltrasonic) : SmartUltrasonic :=
  xs.foldl (fun st x => writeToEEPROM x st) s

/-- The persistent ring as the driver sees it: base offset, head pointer and the cells of
the store. -/
def persistent (s : SmartUltrasonic) : Int × Int × (Int → Fin 256) :=
  (s._eepromStartAddr, s._eepromHeadPtr, s.EEPROM)

/-- The history of a driver: the contents of the RAM ring, its cursor and full flag, the
write counter, the head pointer and the cells of the persistent store. -/
def history (s : SmartUltrasonic) : (Int → ℚ) × Int × Bool × Int × Int × (Int → Fin 256) :=
  (s._ramBuffer, s._ramBufferIndex, s._ramBufferFull, s._writeCounter, s._eepromHeadPtr,
    s.EEPROM)

/-- The ring-index invariant: head pointer in `[0, 250)`, RAM cursor in `[0, 8)`, write
counter in `[0, 10)`. -/
def ringInv (s : SmartUltrasonic) : Prop :=
  (0 ≤ s._eepromHeadPtr ∧ s._eepromHeadPtr < DEFAULT_EEPROM_BUFFER_SIZE)
  ∧ (0 ≤ s._ramBufferIndex ∧ s._ramBufferIndex < DEFAULT_RAM_BUFFER_SIZE)
  ∧ (0 ≤ s._writeCounter ∧ s._writeCounter < DEFAULT_EEPROM_WRITE_INTERVAL)

/-- A mobile driver after two measured cycles of 117 µs and a timed-out third cycle that
has been read: begun on an empty store; the reading of the third cycle is a prediction. -/
def twoShortCycles : SmartUltrasonic :=
  run [Op.begin,
    Op.startMeasurement 0, Op.handleInterrupt true 100, Op.handleInterrupt false 217,
    Op.getReading 10,
    Op.startMeasurement 100, Op.handleInterrupt true 100, Op.handleInterrupt false 217,
    Op.getReading 110,
    Op.startMeasurement 200, Op.update 236, Op.getReading 240]
    (ctor 9 10 true 0 (fun _ => 0) (fun _ => 0))

/-- A mobile driver in its second cycle: the first cycle is started at 0 ms, its echo rises
at 100 µs and falls at 1100 µs (duration 1000 µs), it is read at 5 ms, and the second cycle
is started at 10 ms. -/
def secondCycle : SmartUltrasonic :=
  startMeasurement 10 (getReading 5 (handleInterrupt false 1100 (handleInterrupt true 100
    (startMeasurement 0 (ctor 9 10 true 0 (fun _ => 0) (fun _ => 0)))))).2

/-- A static driver after one timed-out cycle: constructed, begun, started at 0 ms, timed
out by the tick at 36 ms and read at 36 ms. -/
def staticAfterTimeout : SmartUltrasonic :=
  (getReading 36 (update 36 (startMeasurement 0
    (begin (ctor 9 10 false 0 (fun _ => 0) (fun _ => 0)))))).2

end SmartUltrasonic

/-! ## Shared lemmas -/

namespace SmartUltrasonic

/-- The prediction is always flagged as predicted and never as verified. -/
theorem predictValue_flags (s : SmartUltrasonic) :
    (predictValue s).1.isPredicted = true ∧ (predictValue s).1.isVerified = false := by
  unfold predictValue
  split <;> simp

/-- The validity test of `getReading`, on the exact distance, is a window of durations. -/
theorem valid_iff_window (d : Nat) :
    (¬ (d = 0 ∨ (d : ℚ) * 0.0343 / 2.0 > 450 ∨ (d : ℚ) * 0.0343 / 2.0 < 2))
      ↔ (117 ≤ d ∧ d ≤ 26239) := by
  constructor
  · intro h
    push_neg at h
    obtain ⟨_, h1, h2⟩ := h
    constructor
    · by_contra hc
      have hd : (d : ℚ) ≤ 116 := by exact_mod_cast (by omega : d ≤ 116)
      norm_num at h2
      linarith
    · by_contra hc
      have hd : (26240 : ℚ) ≤ (d : ℚ) := by exact_mod_cast (by omega : 26240 ≤ d)
      norm_num at h1
      linarith
  · rintro ⟨h1, h2⟩
    have h1q : (117 : ℚ) ≤ (d : ℚ) := by exact_mod_cast h1
    have h2q : (d : ℚ) ≤ 26239 := by exact_mod_cast h2
    push_neg
    refine ⟨by omega, ?_, ?_⟩
    · norm_num
      linarith
    · norm_num
      linarith

/-- In state `DONE` with a rejected duration, `getReading` returns the prediction. -/
theorem getReading_invalid (now : Nat) (s : SmartUltrasonic)
    (hs : s._state = SensorState.DONE)
    (hd : s._duration = 0 ∨ (s._duration : ℚ) * 0.0343 / 2.0 > 450
      ∨ (s._duration : ℚ) * 0.0343 / 2.0 < 2) :
    getReading now s =
      if !s._isMobile then
        ((predictValue s).1, { (predictValue s).2 with
          _state := SensorState.AWAITING_RETRY, _lastEventTime := now })
      else ((predictValue s).1, { (predictValue s).2 with _state := SensorState.IDLE }) := by
  unfold getReading
  simp only [hs, ne_eq, not_true_eq_false, if_false]
  rw [if_pos hd]

/-- In state `DONE` with an accepted duration, `getReading` returns the measurement. -/
theorem getReading_valid (now : Nat) (s : SmartUltrasonic)
    (hs : s._state = SensorState.DONE)
    (hd : ¬ (s._duration = 0 ∨ (s._duration : ℚ) * 0.0343 / 2.0 > 450
      ∨ (s._duration : ℚ) * 0.0343 / 2.0 < 2)) :
    getReading now s =
      (⟨(s._duration : ℚ) * 0.0343 / 2.0, 100, false, false⟩,
        { updateBuffers ((s._duration : ℚ) * 0.0343 / 2.0) s with
          _state := SensorState.IDLE }) := by
  unfold getReading
  simp only [hs, ne_eq, not_true_eq_false, if_false]
  rw [if_neg hd]

end SmartUltrasonic

/-! ## The read operation in state `DONE` -/

namespace SmartUltrasonic

/-- C1: in state `DONE` with captured duration `d`, `getReading` returns the measured
reading `{d * 0.0343 / 2, 100, false, false}` exactly when `d ≠ 0` and the distance is in
`[2, 450]`, which is the window `117 ≤ d ≤ 26239`; otherwise it returns the reading
of `predictValue`, which is flagged as predicted; the distance of `d = 0` is `0` and
`d = 0` is rejected. -/
theorem getReading_done_accepts_iff (now : Nat) (s : SmartUltrasonic)
    (hs : s._state = SensorState.DONE) :
    ((getReading now s).1 = ⟨(s._duration : ℚ) * 0.0343 / 2, 100, false, false⟩
        ↔ (s._duration ≠ 0 ∧ 2 ≤ (s._duration : ℚ) * 0.0343 / 2
            ∧ (s._duration : ℚ) * 0.0343 / 2 ≤ 450))
    ∧ ((s._duration ≠ 0 ∧ 2 ≤ (s._duration : ℚ) * 0.0343 / 2
            ∧ (s._duration : ℚ) * 0.0343 / 2 ≤ 450)
        ↔ (117 ≤ s._duration ∧ s._duration ≤ 26239))
    ∧ (¬ (117 ≤ s._duration ∧ s._duration ≤ 26239) →
        (getReading now s).1 = (predictValue s).1)
    ∧ (predictValue s).1.isPredicted = true
    ∧ ((0 : Nat) : ℚ) * 0.0343 / 2 = 0
    ∧ (s._duration = 0 → (getReading now s).1 = (predictValue s).1) := by
  have hw := valid_iff_window s._duration
  have hform : (s._duration ≠ 0 ∧ 2 ≤ (s._duration : ℚ) * 0.0343 / 2
        ∧ (s._duration : ℚ) * 0.0343 / 2 ≤ 450)
      ↔ ¬ (s._duration = 0 ∨ (s._duration : ℚ) * 0.0343 / 2.0 > 450
        ∨ (s._duration : ℚ) * 0.0343 / 2.0 < 2) := by
    have e : (2.0 : ℚ) = 2 := by norm_num
    rw [e]
    push_neg
    constructor
    · rintro ⟨a, b, c⟩
      exact ⟨a, c, b⟩
    · rintro ⟨a, b, c⟩
      exact ⟨a, c, b⟩
  have hpred : ∀ hd : (s._duration = 0 ∨ (s._duration : ℚ) * 0.0343 / 2.0 > 450
      ∨ (s._duration : ℚ) * 0.0343 / 2.0 < 2),
      (getReading now s).1 = (predictValue s).1 := by
    intro hd
    rw [getReading_invalid now s hs hd]
    split <;> rfl
  refine ⟨?_, hform.trans hw, ?_, (predictValue_flags s).1, by norm_num, ?_⟩
  · rw [hform]
    constructor
    · intro hr hd
      have hp := hpred hd
      rw [hr] at hp
      have hf := (predictValue_flags s).1
      rw [← hp] at hf
      simp at hf
    · intro hd
      rw [getReading_valid now s hs hd]
      have e : (2.0 : ℚ) = 2 := by norm_num
      simp only [e]
  · intro hn
    exact hpred (by
      by_contra hc
      exact hn (hw.mp hc))
  · intro h0
    exact hpred (Or.inl h0)

/-- C1 witness: a driver in state `DONE` with duration 1000 µs returns the measured
reading of 17.15 cm. -/
theorem getReading_done_accepts_iff_witness :
    (getReading 0 { ctor 9 10 false 0 (fun _ => 0) (fun _ => 0) with
        _state := SensorState.DONE, _duration := 1000 }).1
      = ⟨343 / 20, 100, false, false⟩ := by
  have h := (getReading_done_accepts_iff 0 { ctor 9 10 false 0 (fun _ => 0) (fun _ => 0) with
        _state := SensorState.DONE, _duration := 1000 } rfl).1.mpr
        ⟨by decide, by norm_num, by norm_num⟩
  rw [h]
  norm_num

/-! ## The tick and the start request -/

/-- An `update` in state `AWAITING_RETRY` changes nothing, whatever the clock says: the
call of `startMeasurement` it makes is refused by that function's own guard. -/
theorem update_of_awaiting_retry (t : Nat) (s : SmartUltrasonic)
    (h : s._state = SensorState.AWAITING_RETRY) : update t s = s := by
  unfold update startMeasurement
  simp [h]

/-- An `update` in state `IDLE` changes nothing. -/
theorem update_of_idle (t : Nat) (s : SmartUltrasonic)
    (h : s._state = SensorState.IDLE) : update t s = s := by
  unfold update startMeasurement
  simp [h]

/-- A `getReading` outside state `DONE` answers the sentinel and changes nothing. -/
theorem getReading_of_not_done (now : Nat) (s : SmartUltrasonic)
    (h : s._state ≠ SensorState.DONE) :
    getReading now s = (⟨0, 0, false, false⟩, s) := by
  unfold getReading
  rw [if_pos h]

/-- C2: evaluation of the code where the claim fails.  The static driver
`staticAfterTimeout` is in state `AWAITING_RETRY` since 36 ms; the tick at 537 ms, 501 ms
later, does not re-issue the trigger: the state is still `AWAITING_RETRY` and
`_lastEventTime` is still 36. -/
theorem update_retry_not_reissued :
    staticAfterTimeout._state = SensorState.AWAITING_RETRY
    ∧ staticAfterTimeout._lastEventTime = 36
    ∧ usub 537 staticAfterTimeout._lastEventTime > DEFAULT_STATIC_RETRY_MS
    ∧ (update 537 staticAfterTimeout)._state = SensorState.AWAITING_RETRY
    ∧ (update 537 staticAfterTimeout)._lastEventTime = 36 := by
  have hs : staticAfterTimeout._state = SensorState.AWAITING_RETRY := by
    simp [staticAfterTimeout, getReading, update, startMeasurement, begin, loadFromEEPROM,
      ctor, usub, predictValue]
  have hl : staticAfterTimeout._lastEventTime = 36 := by
    simp [staticAfterTimeout, getReading, update, startMeasurement, begin, loadFromEEPROM,
      ctor, usub, predictValue]
  refine ⟨hs, hl, ?_, ?_, ?_⟩
  · rw [hl]
    decide
  · rw [update_of_awaiting_retry 537 _ hs]
    exact hs
  · rw [update_of_awaiting_retry 537 _ hs]
    exact hl

/-- C3: in state `TRIGGERED` or `MEASURING`, a tick more than 35 ms after the last event
leaves state `DONE` with duration 0, and the reading that follows is the prediction, flagged
as predicted; a tick at most 35 ms after it leaves the state and the duration as they
were. -/
theorem update_timeout (t : Nat) (s : SmartUltrasonic)
    (h : s._state = SensorState.TRIGGERED ∨ s._state = SensorState.MEASURING) :
    (usub t s._lastEventTime > 35 →
        (update t s)._state = SensorState.DONE ∧ (update t s)._duration = 0
        ∧ ∀ now, (getReading now (update t s)).1 = (predictValue (update t s)).1
            ∧ (getReading now (update t s)).1.isPredicted = true)
    ∧ (usub t s._lastEventTime ≤ 35 →
        (update t s)._state = s._state ∧ (update t s)._duration = s._duration) := by
  constructor
  · intro ht
    have hu : update t s = { s with _duration := 0, _state := SensorState.DONE } := by
      unfold update startMeasurement
      simp [h, ht]
    have h1 : (update t s)._state = SensorState.DONE := by rw [hu]
    have h2 : (update t s)._duration = 0 := by rw [hu]
    refine ⟨h1, h2, fun now => ?_⟩
    have hg : (getReading now (update t s)).1 = (predictValue (update t s)).1 := by
      rw [getReading_invalid now _ h1 (Or.inl h2)]
      split <;> rfl
    exact ⟨hg, by rw [hg]; exact (predictValue_flags _).1⟩
  · intro ht
    have hu : update t s = s := by
      unfold update startMeasurement
      have ht2 : ¬ (35 < usub t s._lastEventTime) := by omega
      rcases h with h | h <;> simp [h, ht2]
    rw [hu]
    exact ⟨rfl, rfl⟩

/-- C3 witness: a cycle triggered at 0 ms and ticked at 36 ms lands in `DONE` with
duration 0. -/
theorem update_timeout_witness :
    (update 36 (startMeasurement 0 (ctor 9 10 true 0 (fun _ => 0) (fun _ => 0))))._state
        = SensorState.DONE
    ∧ (update 36 (startMeasurement 0 (ctor 9 10 true 0 (fun _ => 0) (fun _ => 0))))._duration
        = 0 :=
  let r := (update_timeout 36 (startMeasurement 0 (ctor 9 10 true 0 (fun _ => 0) (fun _ => 0)))
    (Or.inl rfl)).1 (by decide)
  ⟨r.1, r.2.1⟩

/-- C4: `startMeasurement` changes nothing in the states `TRIGGERED`, `MEASURING` and
`AWAITING_RETRY`; in the states `IDLE` and `DONE` it sets the state to `TRIGGERED` and
`_lastEventTime` to the clock value and nothing else; calling it twice at one clock value
is the same as calling it once. -/
theorem startMeasurement_guard (now : Nat) (s : SmartUltrasonic) :
    ((s._state = SensorState.TRIGGERED ∨ s._state = SensorState.MEASURING
        ∨ s._state = SensorState.AWAITING_RETRY) → startMeasurement now s = s)
    ∧ ((s._state = SensorState.IDLE ∨ s._state = SensorState.DONE) →
        startMeasurement now s
          = { s with _lastEventTime := now, _state := SensorState.TRIGGERED })
    ∧ startMeasurement now (startMeasurement now s) = startMeasurement now s := by
  refine ⟨?_, ?_, ?_⟩
  · intro h
    unfold startMeasurement
    rcases h with h | h | h <;> simp [h]
  · intro h
    unfold startMeasurement
    rcases h with h | h <;> simp [h]
  · unfold startMeasurement
    by_cases h : s._state ≠ SensorState.IDLE ∧ s._state ≠ SensorState.DONE
    · simp [h]
    · simp [h]

/-- C4 witness: started from the constructed (idle) driver at 7 ms, then started again. -/
theorem startMeasurement_guard_witness :
    (startMeasurement 7 (ctor 9 10 true 0 (fun _ => 0) (fun _ => 0)))._state
        = SensorState.TRIGGERED
    ∧ (startMeasurement 7 (ctor 9 10 true 0 (fun _ => 0) (fun _ => 0)))._lastEventTime = 7
    ∧ startMeasurement 7 (startMeasurement 7 (ctor 9 10 true 0 (fun _ => 0) (fun _ => 0)))
        = startMeasurement 7 (ctor 9 10 true 0 (fun _ => 0) (fun _ => 0)) := by
  have h := startMeasurement_guard 7 (ctor 9 10 true 0 (fun _ => 0) (fun _ => 0))
  refine ⟨?_, ?_, h.2.2⟩
  · rw [h.2.1 (Or.inl rfl)]
  · rw [h.2.1 (Or.inl rfl)]

/-- C5: outside state `DONE`, `getReading` returns the sentinel `{0, 0, false, false}` and
leaves the whole driver record, persistent store included, as it was. -/
theorem getReading_not_done_sentinel (now : Nat) (s : SmartUltrasonic)
    (h : s._state ≠ SensorState.DONE) :
    (getReading now s).1 = ⟨0, 0, false, false⟩ ∧ (getReading now s).2 = s := by
  rw [getReading_of_not_done now s h]
  exact ⟨rfl, rfl⟩

/-- C5 witness: a cycle in flight (state `TRIGGERED`) read at 3 ms. -/
theorem getReading_not_done_sentinel_witness :
    (getReading 3 (startMeasurement 0 (ctor 9 10 true 0 (fun _ => 0) (fun _ => 0)))).1
        = ⟨0, 0, false, false⟩
    ∧ (getReading 3 (startMeasurement 0 (ctor 9 10 true 0 (fun _ => 0) (fun _ => 0)))).2
        = startMeasurement 0 (ctor 9 10 true 0 (fun _ => 0) (fun _ => 0)) :=
  getReading_not_done_sentinel 3 (startMeasurement 0 (ctor 9 10 true 0 (fun _ => 0) (fun _ => 0)))
    (by decide)

end SmartUltrasonic

/-! ## After an invalid reading -/

namespace SmartUltrasonic

/-- A run of ticks from state `AWAITING_RETRY` changes nothing. -/
theorem updates_of_awaiting_retry (ts : List Nat) (s : SmartUltrasonic)
    (h : s._state = SensorState.AWAITING_RETRY) : updates ts s = s := by
  induction ts with
  | nil => rfl
  | cons t ts ih =>
    show updates ts (update t s) = s
    rw [update_of_awaiting_retry t s h]
    exact ih

/-- An edge in state `IDLE` changes nothing. -/
theorem handleInterrupt_of_idle (echo : Bool) (us : Nat) (s : SmartUltrasonic)
    (h : s._state = SensorState.IDLE) : handleInterrupt echo us s = s := by
  unfold handleInterrupt
  cases echo <;> simp [h]

/-- The prediction step leaves the ranging state and the event time as they were. -/
theorem predictValue_state (s : SmartUltrasonic) :
    (predictValue s).2._state = s._state
    ∧ (predictValue s).2._lastEventTime = s._lastEventTime
    ∧ (predictValue s).2._isMobile = s._isMobile := by
  unfold predictValue
  split <;> simp

/-- C6: a static driver read at `t0` in state `DONE` with an invalid duration goes to
`AWAITING_RETRY` with `_lastEventTime = t0`, and no tick within the retry interval
re-triggers: after one tick, and after any run of ticks, each at most 500 ms after `t0`,
the state is still `AWAITING_RETRY`. -/
theorem static_invalid_awaits_retry (t0 : Nat) (s : SmartUltrasonic)
    (hm : s._isMobile = false) (hs : s._state = SensorState.DONE)
    (hd : s._duration = 0 ∨ (s._duration : ℚ) * 0.0343 / 2.0 > 450
      ∨ (s._duration : ℚ) * 0.0343 / 2.0 < 2) :
    (getReading t0 s).2._state = SensorState.AWAITING_RETRY
    ∧ (getReading t0 s).2._lastEventTime = t0
    ∧ (∀ t, usub t t0 ≤ DEFAULT_STATIC_RETRY_MS →
        (update t (getReading t0 s).2)._state = SensorState.AWAITING_RETRY)
    ∧ (∀ ts : List Nat, (∀ t ∈ ts, usub t t0 ≤ DEFAULT_STATIC_RETRY_MS) →
        (updates ts (getReading t0 s).2)._state = SensorState.AWAITING_RETRY) := by
  have h1 : (getReading t0 s).2._state = SensorState.AWAITING_RETRY := by
    rw [getReading_invalid t0 s hs hd]
    simp [hm]
  have h2 : (getReading t0 s).2._lastEventTime = t0 := by
    rw [getReading_invalid t0 s hs hd]
    simp [hm]
  refine ⟨h1, h2, ?_, ?_⟩
  · intro t _
    rw [update_of_awaiting_retry t _ h1]
    exact h1
  · intro ts _
    rw [updates_of_awaiting_retry ts _ h1]
    exact h1

/-- C6 witness: the static driver timed out at 36 ms and read at 36 ms, ticked at 100 ms
and at 536 ms (64 ms and 500 ms after the reading). -/
theorem static_invalid_awaits_retry_witness :
    (updates [100, 536] (getReading 36 (update 36 (startMeasurement 0
      (begin (ctor 9 10 false 0 (fun _ => 0) (fun _ => 0)))))).2)._state
      = SensorState.AWAITING_RETRY :=
  (static_invalid_awaits_retry 36 (update 36 (startMeasurement 0
      (begin (ctor 9 10 false 0 (fun _ => 0) (fun _ => 0)))))
    (by simp [update, startMeasurement, begin, loadFromEEPROM, ctor, usub])
    (by simp [update, startMeasurement, begin, loadFromEEPROM, ctor, usub])
    (Or.inl (by simp [update, startMeasurement, begin, loadFromEEPROM, ctor, usub]))).2.2.2
    [100, 536] (by decide)

/-- A call of `update`, `handleInterrupt` or `getReading` in state `IDLE` leaves the state
`IDLE`. -/
theorem step_idle (o : Op) (s : SmartUltrasonic) (h : s._state = SensorState.IDLE)
    (ho : (∃ t, o = Op.update t) ∨ (∃ e u, o = Op.handleInterrupt e u)
      ∨ (∃ t, o = Op.getReading t)) :
    (step o s)._state = SensorState.IDLE := by
  rcases ho with ⟨t, rfl⟩ | ⟨e, u, rfl⟩ | ⟨t, rfl⟩
  · show (update t s)._state = _
    rw [update_of_idle t s h]
    exact h
  · show (handleInterrupt e u s)._state = _
    rw [handleInterrupt_of_idle e u s h]
    exact h
  · show (getReading t s).2._state = _
    rw [getReading_of_not_done t s (by rw [h]; decide)]
    exact h

/-- A run of `update`, `handleInterrupt` and `getReading` calls from state `IDLE` ends in
state `IDLE`. -/
theorem run_idle (ops : List Op) (s : SmartUltrasonic) (h : s._state = SensorState.IDLE)
    (ho : ∀ o ∈ ops, (∃ t, o = Op.update t) ∨ (∃ e u, o = Op.handleInterrupt e u)
      ∨ (∃ t, o = Op.getReading t)) :
    (run ops s)._state = SensorState.IDLE := by
  induction ops generalizing s with
  | nil => exact h
  | cons o ops ih =>
    show (run ops (step o s))._state = _
    exact ih (step o s) (step_idle o s h (ho o (List.mem_cons_self o ops)))
      (fun o2 h2 => ho o2 (List.mem_cons_of_mem o h2))

/-- C7: a mobile driver read in state `DONE` with an invalid duration goes to `IDLE`, and
stays `IDLE` through every finite run of `update`, `handleInterrupt` and `getReading`
calls, at any clock values and echo levels. -/
theorem mobile_invalid_never_retries (t0 : Nat) (s : SmartUltrasonic)
    (hm : s._isMobile = true) (hs : s._state = SensorState.DONE)
    (hd : s._duration = 0 ∨ (s._duration : ℚ) * 0.0343 / 2.0 > 450
      ∨ (s._duration : ℚ) * 0.0343 / 2.0 < 2) :
    (getReading t0 s).2._state = SensorState.IDLE
    ∧ ∀ ops : List Op,
        (∀ o ∈ ops, (∃ t, o = Op.update t) ∨ (∃ e u, o = Op.handleInterrupt e u)
          ∨ (∃ t, o = Op.getReading t)) →
        (run ops (getReading t0 s).2)._state = SensorState.IDLE := by
  have h1 : (getReading t0 s).2._state = SensorState.IDLE := by
    rw [getReading_invalid t0 s hs hd]
    simp [hm]
  exact ⟨h1, fun ops ho => run_idle ops _ h1 ho⟩

/-- C7 witness: the mobile driver timed out at 36 ms and read at 36 ms, then ticked
at 1000 ms, given a rising and a falling edge, and read again. -/
theorem mobile_invalid_never_retries_witness :
    (run [Op.update 1000, Op.handleInterrupt true 5, Op.handleInterrupt false 9,
        Op.getReading 1001]
      (getReading 36 (update 36 (startMeasurement 0
        (begin (ctor 9 10 true 0 (fun _ => 0) (fun _ => 0)))))).2)._state
      = SensorState.IDLE :=
  (mobile_invalid_never_retries 36 (update 36 (startMeasurement 0
      (begin (ctor 9 10 true 0 (fun _ => 0) (fun _ => 0)))))
    (by simp [update, startMeasurement, begin, loadFromEEPROM, ctor, usub])
    (by simp [update, startMeasurement, begin, loadFromEEPROM, ctor, usub])
    (Or.inl (by simp [update, startMeasurement, begin, loadFromEEPROM, ctor, usub]))).2
    [Op.update 1000, Op.handleInterrupt true 5, Op.handleInterrupt false 9, Op.getReading 1001]
    (by simp)

end SmartUltrasonic

/-! ## The history ring and the estimator -/

namespace SmartUltrasonic

/-- The effect of `updateBuffers` on the RAM ring: slot `cursor` takes the reading, the
cursor advances modulo 8, and the ring becomes full when the cursor wraps to 0. -/
theorem updateBuffers_ring (v : ℚ) (s : SmartUltrasonic) :
    (updateBuffers v s)._ramBuffer = Function.update s._ramBuffer s._ramBufferIndex v
    ∧ (updateBuffers v s)._ramBufferIndex = Int.tmod (s._ramBufferIndex + 1) 8
    ∧ (updateBuffers v s)._ramBufferFull
        = (s._ramBufferFull || decide (Int.tmod (s._ramBufferIndex + 1) 8 = 0))
    ∧ (updateBuffers v s)._lastPrediction = s._lastPrediction := by
  unfold updateBuffers writeToEEPROM
  dsimp only
  by_cases hw : s._writeCounter + 1 ≥ DEFAULT_EEPROM_WRITE_INTERVAL
  · rw [if_pos hw]
    cases hf : s._ramBufferFull <;> simp
  · rw [if_neg hw]
    cases hf : s._ramBufferFull <;> simp

/-- For a cursor in `[0, 8)` the advanced cursor is `(cursor + 1) mod 8`. -/
theorem tmod_succ_eq (i : Int) (h0 : 0 ≤ i) : Int.tmod (i + 1) 8 = (i + 1) % 8 :=
  Int.tmod_eq_emod (by omega) (by decide)

/-- A push from a non-negative cursor leaves the cursor in `[0, 8)`. -/
theorem updateBuffers_index_range (v : ℚ) (s : SmartUltrasonic)
    (h0 : 0 ≤ s._ramBufferIndex) :
    0 ≤ (updateBuffers v s)._ramBufferIndex ∧ (updateBuffers v s)._ramBufferIndex < 8 := by
  rw [(updateBuffers_ring v s).2.1, tmod_succ_eq _ h0]
  omega

/-- A run of pushes keeps the cursor in `[0, 8)`. -/
theorem pushAll_index_range (vs : List ℚ) (s : SmartUltrasonic)
    (h0 : 0 ≤ s._ramBufferIndex) (h8 : s._ramBufferIndex < 8) :
    0 ≤ (pushAll vs s)._ramBufferIndex ∧ (pushAll vs s)._ramBufferIndex < 8 := by
  induction vs generalizing s with
  | nil => exact ⟨h0, h8⟩
  | cons v vs ih =>
    show 0 ≤ (pushAll vs (updateBuffers v s))._ramBufferIndex
      ∧ (pushAll vs (updateBuffers v s))._ramBufferIndex < 8
    have h := updateBuffers_index_range v s h0
    exact ih _ h.1 h.2

/-- A run of pushes followed by two more is the two pushes applied to the run. -/
theorem pushAll_append_two (vs : List ℚ) (a b : ℚ) (s : SmartUltrasonic) :
    pushAll (vs ++ [a, b]) s = updateBuffers b (updateBuffers a (pushAll vs s)) := by
  unfold pushAll
  rw [List.foldl_append]
  rfl

/-- The macro `constrain` with bounds 2 and 450 is the clamp into `[2, 450]`. -/
theorem constrain_eq_clamp (x : ℚ) : constrain x 2 450 = max 2 (min 450 x) := by
  unfold constrain
  split_ifs with h1 h2
  · rw [min_eq_right (by linarith), max_eq_left (by linarith)]
  · rw [min_eq_left (by linarith), max_eq_right (by norm_num)]
  · rw [min_eq_right (by linarith), max_eq_right (by linarith)]

/-- After two pushes `a`, `b` onto a ring with its cursor in `[0, 8)`, the estimator has
data, its current sample is `b` and its previous sample is `a`. -/
theorem two_pushes_recent (a b : ℚ) (s : SmartUltrasonic)
    (h0 : 0 ≤ s._ramBufferIndex) (h8 : s._ramBufferIndex < 8) :
    ¬ ((!(updateBuffers b (updateBuffers a s))._ramBufferFull) = true
        ∧ (updateBuffers b (updateBuffers a s))._ramBufferIndex < 2)
    ∧ (updateBuffers b (updateBuffers a s))._ramBuffer
        (Int.tmod ((updateBuffers b (updateBuffers a s))._ramBufferIndex - 1 + 8) 8) = b
    ∧ (updateBuffers b (updateBuffers a s))._ramBuffer
        (Int.tmod ((updateBuffers b (updateBuffers a s))._ramBufferIndex - 2 + 8) 8) = a := by
  obtain ⟨hb2, hi2, hf2, _⟩ := updateBuffers_ring b (updateBuffers a s)
  obtain ⟨hb1, hi1, hf1, _⟩ := updateBuffers_ring a s
  have hr1 := updateBuffers_index_range a s h0
  rw [tmod_succ_eq _ h0] at hi1 hf1
  rw [tmod_succ_eq _ hr1.1] at hi2 hf2
  have e1 : Int.tmod ((updateBuffers b (updateBuffers a s))._ramBufferIndex - 1 + 8) 8
      = (updateBuffers a s)._ramBufferIndex := by
    rw [Int.tmod_eq_emod (by omega) (by decide)]
    omega
  have e2 : Int.tmod ((updateBuffers b (updateBuffers a s))._ramBufferIndex - 2 + 8) 8
      = s._ramBufferIndex := by
    rw [Int.tmod_eq_emod (by omega) (by decide)]
    omega
  refine ⟨?_, ?_, ?_⟩
  · rintro ⟨hnf, hlt⟩
    rw [hf2, hf1] at hnf
    simp only [Bool.not_eq_true', Bool.or_eq_false_iff, decide_eq_false_iff_not] at hnf
    obtain ⟨⟨_, hn1⟩, hn2⟩ := hnf
    omega
  · rw [e1, hb2, Function.update_same]
  · rw [e2, hb2, hb1, Function.update_noteq (by omega), Function.update_same]

/-- C8: from any RAM ring with its cursor in `[0, 8)`, any full flag and any contents,
after any run of pushes that ends with `a` then `b` (two pushes or more, wrapping or not),
`predictValue` returns distance `clamp(b + (b - a), 2, 450)` flagged predicted and not
verified, and stores that distance in `_lastPrediction`. -/
theorem predictValue_after_pushes (s : SmartUltrasonic)
    (h0 : 0 ≤ s._ramBufferIndex) (h8 : s._ramBufferIndex < 8)
    (vs : List ℚ) (a b : ℚ) :
    (predictValue (pushAll (vs ++ [a, b]) s)).1.distance = max 2 (min 450 (b + (b - a)))
    ∧ (predictValue (pushAll (vs ++ [a, b]) s)).1.isPredicted = true
    ∧ (predictValue (pushAll (vs ++ [a, b]) s)).1.isVerified = false
    ∧ (predictValue (pushAll (vs ++ [a, b]) s)).2._lastPrediction
        = max 2 (min 450 (b + (b - a))) := by
  have hr := pushAll_index_range vs s h0 h8
  obtain ⟨hg, hc, hp⟩ := two_pushes_recent a b (pushAll vs s) hr.1 hr.2
  rw [pushAll_append_two]
  have hf := predictValue_flags (updateBuffers b (updateBuffers a (pushAll vs s)))
  refine ⟨?_, hf.1, hf.2, ?_⟩
  · unfold predictValue
    rw [if_neg hg]
    simp only [hc, hp]
    exact constrain_eq_clamp _
  · unfold predictValue
    rw [if_neg hg]
    simp only [hc, hp]
    exact constrain_eq_clamp _

/-- C8 witness: the history `[10, 12]` on a fresh driver gives the prediction 14. -/
theorem predictValue_after_pushes_witness :
    (predictValue (pushAll [10, 12] (ctor 9 10 true 0 (fun _ => 0) (fun _ => 0)))).1.distance
      = 14 := by
  have h := (predictValue_after_pushes (ctor 9 10 true 0 (fun _ => 0) (fun _ => 0))
    (by decide) (by decide) [] 10 12).1
  rw [List.nil_append] at h
  rw [h]
  norm_num

/-- C9: on a freshly constructed driver (no `begin`) with fewer than 2 samples pushed,
`predictValue` returns exactly `{450, 0, true, false}` and changes nothing, so
`_lastPrediction` is as it was. -/
theorem predictValue_fresh_default (trigPin echoPin : Nat) (isMobileSystem : Bool)
    (eepromAddr : Int) (ram : Int → ℚ) (cells : Int → Fin 256) (vs : List ℚ)
    (h : vs.length < 2) :
    (predictValue (pushAll vs (ctor trigPin echoPin isMobileSystem eepromAddr ram cells))).1
        = ⟨450, 0, true, false⟩
    ∧ (predictValue (pushAll vs (ctor trigPin echoPin isMobileSystem eepromAddr ram cells))).2
        = pushAll vs (ctor trigPin echoPin isMobileSystem eepromAddr ram cells) := by
  have hg : (!(pushAll vs (ctor trigPin echoPin isMobileSystem eepromAddr ram cells))._ramBufferFull)
        = true
      ∧ (pushAll vs (ctor trigPin echoPin isMobileSystem eepromAddr ram cells))._ramBufferIndex
        < 2 := by
    rcases vs with _ | ⟨v, _ | ⟨w, tl⟩⟩
    · exact ⟨rfl, show (0 : Int) < 2 by decide⟩
    · obtain ⟨_, hi, hf, _⟩ :=
        updateBuffers_ring v (ctor trigPin echoPin isMobileSystem eepromAddr ram cells)
      show (!(updateBuffers v (ctor trigPin echoPin isMobileSystem eepromAddr ram
          cells))._ramBufferFull) = true
        ∧ (updateBuffers v (ctor trigPin echoPin isMobileSystem eepromAddr ram
          cells))._ramBufferIndex < 2
      rw [hi, hf]
      simp [ctor]
      decide
    · exact absurd h (by simp)
  unfold predictValue
  rw [if_pos hg]
  exact ⟨rfl, rfl⟩

/-- C9 witness: one sample, 25, pushed onto a fresh driver. -/
theorem predictValue_fresh_default_witness :
    (predictValue (pushAll [25] (ctor 9 10 true 0 (fun _ => 0) (fun _ => 0)))).1
        = ⟨450, 0, true, false⟩ :=
  (predictValue_fresh_default 9 10 true 0 (fun _ => 0) (fun _ => 0) [25] (by decide)).1

end SmartUltrasonic

/-! ## The confidence of a prediction -/

namespace SmartUltrasonic

/-- The comparison of a root against a positive bound is the comparison of the real square
root of the radicand against it. -/
theorem sqrt_lt_iff (v k : ℚ) (hk : 0 < k) :
    Real.sqrt (v : ℝ) < (k : ℝ) ↔ v < k * k := by
  have hk2 : (0 : ℝ) < (k : ℝ) := by exact_mod_cast hk
  rw [Real.sqrt_lt' hk2]
  constructor
  · intro h
    have h2 : (v : ℝ) < ((k * k : ℚ) : ℝ) := by
      push_cast
      nlinarith
    exact_mod_cast h2
  · intro h
    have h2 : (v : ℝ) < ((k * k : ℚ) : ℝ) := by exact_mod_cast h
    push_cast at h2
    nlinarith

/-- The confidence of a prediction made with data is the tier of the radicand. -/
theorem predictValue_confidence (s : SmartUltrasonic)
    (h : s._ramBufferFull = true ∨ 2 ≤ s._ramBufferIndex) :
    (predictValue s).1.confidence = calculateConfidence (calculateStdDev s) := by
  have hg : ¬ ((!s._ramBufferFull) = true ∧ s._ramBufferIndex < 2) := by
    rintro ⟨h1, h2⟩
    rcases h with h | h
    · rw [h] at h1
      simp at h1
    · omega
  unfold predictValue
  rw [if_neg hg]
  rfl

end SmartUltrasonic

/-! ## The edge handler and the verification -/

namespace SmartUltrasonic

/-- C14: the edge handler has exactly two transitions.  Echo high in `TRIGGERED`:
`_startTime` becomes the microsecond clock and the state `MEASURING`.  Echo low in
`MEASURING`: `_duration` becomes `(t - _startTime) mod 2^32` and the state `DONE`.  In every
other combination of level and state the record is unchanged. -/
theorem handleInterrupt_transitions (echo : Bool) (t : Nat) (s : SmartUltrasonic) :
    (echo = true ∧ s._state = SensorState.TRIGGERED →
        handleInterrupt echo t s
          = { s with _startTime := t, _state := SensorState.MEASURING })
    ∧ (echo = false ∧ s._state = SensorState.MEASURING →
        handleInterrupt echo t s
          = { s with _duration := usub t s._startTime, _state := SensorState.DONE }
        ∧ usub t s._startTime = (((t : Int) - (s._startTime : Int)) % 2 ^ 32).toNat)
    ∧ (¬ (echo = true ∧ s._state = SensorState.TRIGGERED)
        ∧ ¬ (echo = false ∧ s._state = SensorState.MEASURING) →
        handleInterrupt echo t s = s) := by
  refine ⟨?_, ?_, ?_⟩
  · rintro ⟨he, hs⟩
    unfold handleInterrupt
    simp [he, hs]
  · rintro ⟨he, hs⟩
    refine ⟨?_, ?_⟩
    · unfold handleInterrupt
      simp [he, hs]
    · unfold usub
      norm_num
  · rintro ⟨h1, h2⟩
    unfold handleInterrupt
    cases echo
    · simp only [Bool.false_eq_true, if_false]
      rw [if_neg (fun hs => h2 ⟨rfl, hs⟩)]
    · simp only [if_true]
      rw [if_neg (fun hs => h1 ⟨rfl, hs⟩)]

/-- C14 witness: a cycle started at 0 ms whose echo rises at 100 µs and falls at 1100 µs
ends in `DONE` with duration 1000 µs. -/
theorem handleInterrupt_transitions_witness :
    (handleInterrupt false 1100 (handleInterrupt true 100
      (startMeasurement 0 (ctor 9 10 true 0 (fun _ => 0) (fun _ => 0)))))._state
        = SensorState.DONE
    ∧ (handleInterrupt false 1100 (handleInterrupt true 100
      (startMeasurement 0 (ctor 9 10 true 0 (fun _ => 0) (fun _ => 0)))))._duration = 1000 := by
  have h1 := (handleInterrupt_transitions true 100
    (startMeasurement 0 (ctor 9 10 true 0 (fun _ => 0) (fun _ => 0)))).1 ⟨rfl, rfl⟩
  have h2 := ((handleInterrupt_transitions false 1100 (handleInterrupt true 100
    (startMeasurement 0 (ctor 9 10 true 0 (fun _ => 0) (fun _ => 0))))).2.1
      ⟨rfl, by rw [h1]⟩).1
  rw [h2, h1]
  exact ⟨rfl, by decide⟩

end SmartUltrasonic

/-! ## Confidence is monotone -/

namespace SmartUltrasonic

/-- The confidence of a root is the tier of its real value. -/
theorem calculateConfidence_eq_tier (x : Root) :
    calculateConfidence x
      = (if Real.sqrt (x.radicand : ℝ) < 1 then 90
        else if Real.sqrt (x.radicand : ℝ) < 5 then 75
        else if Real.sqrt (x.radicand : ℝ) < 10 then 60
        else 40) := by
  have s1 := sqrt_lt_iff x.radicand 1 (by norm_num)
  have s5 := sqrt_lt_iff x.radicand 5 (by norm_num)
  have s10 := sqrt_lt_iff x.radicand 10 (by norm_num)
  unfold calculateConfidence Root.lt
  push_cast at s1 s5 s10
  simp only [s1, s5, s10]

/-- C16: for standard deviations `σ1 ≤ σ2` (the real values of two roots),
`calculateConfidence σ1 ≥ calculateConfidence σ2`; so of two histories the one whose
computed standard deviation is smaller gets, from `calculateConfidence`, a confidence that
is not lower, and that is the confidence `predictValue` reports for a history with at
least 2 samples available. -/
theorem calculateConfidence_antitone (x y : Root)
    (h : Real.sqrt (x.radicand : ℝ) ≤ Real.sqrt (y.radicand : ℝ)) :
    calculateConfidence y ≤ calculateConfidence x
    ∧ (∀ s1 s2 : SmartUltrasonic, calculateStdDev s1 = x → calculateStdDev s2 = y →
        calculateConfidence (calculateStdDev s2) ≤ calculateConfidence (calculateStdDev s1))
    ∧ (∀ s1 s2 : SmartUltrasonic, calculateStdDev s1 = x → calculateStdDev s2 = y →
        (s1._ramBufferFull = true ∨ 2 ≤ s1._ramBufferIndex) →
        (s2._ramBufferFull = true ∨ 2 ≤ s2._ramBufferIndex) →
        (predictValue s2).1.confidence ≤ (predictValue s1).1.confidence) := by
  have hm : calculateConfidence y ≤ calculateConfidence x := by
    rw [calculateConfidence_eq_tier x, calculateConfidence_eq_tier y]
    split_ifs <;> first | decide | (exfalso; linarith)
  refine ⟨hm, ?_, ?_⟩
  · intro s1 s2 h1 h2
    rw [h1, h2]
    exact hm
  · intro s1 s2 h1 h2 d1 d2
    rw [predictValue_confidence s1 d1, predictValue_confidence s2 d2, h1, h2]
    exact hm

/-- C16 witness: a standard deviation of 2 (radicand 4) against one of 7 (radicand 49):
confidence 75 against 60. -/
theorem calculateConfidence_antitone_witness :
    calculateConfidence ⟨49⟩ ≤ calculateConfidence ⟨4⟩
    ∧ calculateConfidence ⟨4⟩ = 75 ∧ calculateConfidence ⟨49⟩ = 60 :=
  ⟨(calculateConfidence_antitone ⟨4⟩ ⟨49⟩
      (Real.sqrt_le_sqrt (by norm_num))).1,
    by norm_num [calculateConfidence, Root.lt], by norm_num [calculateConfidence, Root.lt]⟩

end SmartUltrasonic

/-! ## Frame properties of the polling flow -/

namespace SmartUltrasonic

/-- The fields `predictValue` leaves alone: all but `_lastPrediction`. -/
theorem predictValue_frame (s : SmartUltrasonic) :
    (predictValue s).2._duration = s._duration
    ∧ (predictValue s).2._startTime = s._startTime
    ∧ history (predictValue s).2 = history s := by
  unfold predictValue history
  split <;> simp

/-- The fields `updateBuffers` leaves alone: the ranging state and the timing fields. -/
theorem updateBuffers_frame (v : ℚ) (s : SmartUltrasonic) :
    (updateBuffers v s)._duration = s._duration
    ∧ (updateBuffers v s)._startTime = s._startTime
    ∧ (updateBuffers v s)._state = s._state
    ∧ (updateBuffers v s)._lastEventTime = s._lastEventTime
    ∧ (updateBuffers v s)._eepromStartAddr = s._eepromStartAddr := by
  unfold updateBuffers writeToEEPROM
  dsimp only
  by_cases hw : s._writeCounter + 1 ≥ DEFAULT_EEPROM_WRITE_INTERVAL
  · rw [if_pos hw]
    simp
  · rw [if_neg hw]
    simp

/-- The duration after `getReading` is the duration before it. -/
theorem getReading_duration (now : Nat) (s : SmartUltrasonic) :
    (getReading now s).2._duration = s._duration := by
  by_cases hs : s._state = SensorState.DONE
  · by_cases hd : s._duration = 0 ∨ (s._duration : ℚ) * 0.0343 / 2.0 > 450
        ∨ (s._duration : ℚ) * 0.0343 / 2.0 < 2
    · rw [getReading_invalid now s hs hd]
      split <;> exact (predictValue_frame s).1
    · rw [getReading_valid now s hs hd]
      exact (updateBuffers_frame _ s).1
  · rw [getReading_of_not_done now s hs]

/-- The duration after `update`: 0 on a timeout, else the duration before it. -/
theorem update_duration (now : Nat) (s : SmartUltrasonic) :
    (update now s)._duration
      = if (s._state = SensorState.TRIGGERED ∨ s._state = SensorState.MEASURING)
          ∧ usub now s._lastEventTime > DEFAULT_SENSOR_TIMEOUT_MS then 0
        else s._duration := by
  unfold update startMeasurement
  by_cases h : (s._state = SensorState.TRIGGERED ∨ s._state = SensorState.MEASURING)
      ∧ usub now s._lastEventTime > DEFAULT_SENSOR_TIMEOUT_MS
  · simp only [if_pos h]
    simp
  · simp only [if_neg h]
    split <;> (try split) <;> rfl

/-- C17, as the code has it: `startMeasurement` and `getReading` leave `_duration`
unchanged from every state and at every clock value; `update` leaves it unchanged except
on a timeout (state `TRIGGERED` or `MEASURING`, more than 35 ms since the last event),
where it sets `_duration` to 0. -/
theorem polling_duration_frame (now : Nat) (s : SmartUltrasonic) :
    (startMeasurement now s)._duration = s._duration
    ∧ (getReading now s).2._duration = s._duration
    ∧ (¬ ((s._state = SensorState.TRIGGERED ∨ s._state = SensorState.MEASURING)
          ∧ usub now s._lastEventTime > 35) →
        (update now s)._duration = s._duration)
    ∧ ((s._state = SensorState.TRIGGERED ∨ s._state = SensorState.MEASURING)
          ∧ usub now s._lastEventTime > 35 →
        (update now s)._duration = 0) := by
  refine ⟨?_, getReading_duration now s, ?_, ?_⟩
  · unfold startMeasurement
    split <;> rfl
  · intro h
    rw [update_duration, if_neg h]
  · intro h
    rw [update_duration, if_pos h]

/-- C17 witness: the second cycle of `secondCycle`, ticked 5 ms after its start, keeps the
duration 1000 of the first cycle. -/
theorem polling_duration_frame_witness :
    (update 15 secondCycle)._duration = secondCycle._duration :=
  (polling_duration_frame 15 secondCycle).2.2.1 (by
    have h : usub 15 secondCycle._lastEventTime = 5 := by
      simp [secondCycle, startMeasurement, getReading, handleInterrupt, ctor, usub,
        updateBuffers]
      norm_num
      rfl
    rw [h]
    rintro ⟨_, h2⟩
    exact absurd h2 (by decide))

/-- C17 counterexample: `secondCycle` still holds the duration 1000 µs of its first cycle;
the tick at 46 ms, 36 ms after the start of the second cycle, times out and writes
`_duration = 0`, so `update` does not leave `_duration` unchanged. -/
theorem update_writes_duration :
    secondCycle._state = SensorState.TRIGGERED
    ∧ secondCycle._duration = 1000
    ∧ (update 46 secondCycle)._duration = 0
    ∧ (update 46 secondCycle)._duration ≠ secondCycle._duration := by
  have hs : secondCycle._state = SensorState.TRIGGERED := by
    simp [secondCycle, startMeasurement, getReading, handleInterrupt, ctor, usub,
      updateBuffers]
    norm_num
  have hd : secondCycle._duration = 1000 := by
    simp [secondCycle, startMeasurement, getReading, handleInterrupt, ctor, usub,
      updateBuffers]
    norm_num
  have hl : usub 46 secondCycle._lastEventTime = 36 := by
    simp [secondCycle, startMeasurement, getReading, handleInterrupt, ctor, usub,
      updateBuffers]
    norm_num
    rfl
  have hu : (update 46 secondCycle)._duration = 0 := by
    rw [update_duration, if_pos ⟨Or.inl hs, by rw [hl]; decide⟩]
  refine ⟨hs, hd, hu, ?_⟩
  rw [hu, hd]
  decide

/-- The history after `startMeasurement` is the history before it. -/
theorem history_startMeasurement (now : Nat) (s : SmartUltrasonic) :
    history (startMeasurement now s) = history s := by
  unfold startMeasurement
  split <;> rfl

/-- The history after `update` is the history before it. -/
theorem history_update (now : Nat) (s : SmartUltrasonic) :
    history (update now s) = history s := by
  unfold update
  dsimp only
  split <;> split <;> first | rfl | exact history_startMeasurement _ _

/-- The history after `handleInterrupt` is the history before it. -/
theorem history_handleInterrupt (echo : Bool) (us : Nat) (s : SmartUltrasonic) :
    history (handleInterrupt echo us s) = history s := by
  unfold handleInterrupt
  split <;> split <;> rfl

/-- The history after `getReading` is the history before it, unless the reading is a
valid measurement, and then it is the history after `updateBuffers`. -/
theorem history_getReading (now : Nat) (s : SmartUltrasonic) :
    history (getReading now s).2 = history s
    ∨ ∃ v : ℚ, history (getReading now s).2 = history (updateBuffers v s) := by
  by_cases hs : s._state = SensorState.DONE
  · by_cases hd : s._duration = 0 ∨ (s._duration : ℚ) * 0.0343 / 2.0 > 450
        ∨ (s._duration : ℚ) * 0.0343 / 2.0 < 2
    · left
      rw [getReading_invalid now s hs hd]
      split <;> exact (predictValue_frame s).2.2
    · right
      rw [getReading_valid now s hs hd]
      exact ⟨_, rfl⟩
  · left
    rw [getReading_of_not_done now s hs]

/-- C18: a `getReading` in state `DONE` with an invalid duration leaves the history as it
was (RAM ring contents, cursor, full flag, write counter, head pointer and every cell of the
persistent store), and so do `startMeasurement`, `update`, `handleInterrupt` and
`verifyLastPrediction` from every state. -/
theorem history_frame (now us : Nat) (echo : Bool) (m : ℚ) (s : SmartUltrasonic) :
    (s._state = SensorState.DONE
        ∧ (s._duration = 0 ∨ (s._duration : ℚ) * 0.0343 / 2 < 2
          ∨ (s._duration : ℚ) * 0.0343 / 2 > 450) →
        history (getReading now s).2 = history s)
    ∧ history (startMeasurement now s) = history s
    ∧ history (update now s) = history s
    ∧ history (handleInterrupt echo us s) = history s
    ∧ history (step (Op.verifyLastPrediction m) s) = history s := by
  refine ⟨?_, history_startMeasurement now s, history_update now s,
    history_handleInterrupt echo us s, rfl⟩
  rintro ⟨hs, hd⟩
  have hd2 : s._duration = 0 ∨ (s._duration : ℚ) * 0.0343 / 2.0 > 450
      ∨ (s._duration : ℚ) * 0.0343 / 2.0 < 2 := by
    have e : (2.0 : ℚ) = 2 := by norm_num
    rw [e]
    rcases hd with h | h | h
    · exact Or.inl h
    · exact Or.inr (Or.inr h)
    · exact Or.inr (Or.inl h)
  rw [getReading_invalid now s hs hd2]
  split <;> exact (predictValue_frame s).2.2

/-- C18 witness: the timed-out cycle of a static driver, read at 36 ms: the history after
the reading is the history before it. -/
theorem history_frame_witness :
    history (getReading 36 (update 36 (startMeasurement 0
        (begin (ctor 9 10 false 0 (fun _ => 0) (fun _ => 0)))))).2
      = history (update 36 (startMeasurement 0
        (begin (ctor 9 10 false 0 (fun _ => 0) (fun _ => 0))))) :=
  (history_frame 36 0 false 0 (update 36 (startMeasurement 0
      (begin (ctor 9 10 false 0 (fun _ => 0) (fun _ => 0)))))).1
    ⟨by simp [update, startMeasurement, begin, loadFromEEPROM, ctor, usub],
      Or.inl (by simp [update, startMeasurement, begin, loadFromEEPROM, ctor, usub])⟩

end SmartUltrasonic

/-! ## The ring indices stay in range -/

namespace SmartUltrasonic

/-- What a call does to the history: nothing, or what `updateBuffers` does (a valid
reading), or what `begin` does. -/
theorem history_step (o : Op) (s : SmartUltrasonic) :
    history (step o s) = history s
    ∨ (∃ v : ℚ, history (step o s) = history (updateBuffers v s))
    ∨ history (step o s) = history (begin s) := by
  cases o with
  | begin => exact Or.inr (Or.inr rfl)
  | startMeasurement now => exact Or.inl (history_startMeasurement now s)
  | update now => exact Or.inl (history_update now s)
  | handleInterrupt echo us => exact Or.inl (history_handleInterrupt echo us s)
  | getReading now =>
    rcases history_getReading now s with h | h
    · exact Or.inl h
    · exact Or.inr (Or.inl h)
  | verifyLastPrediction m => exact Or.inl rfl

/-- The fields of the history, read off an equation between histories. -/
theorem history_fields (a b : SmartUltrasonic) (h : history a = history b) :
    a._ramBuffer = b._ramBuffer ∧ a._ramBufferIndex = b._ramBufferIndex
    ∧ a._ramBufferFull = b._ramBufferFull ∧ a._writeCounter = b._writeCounter
    ∧ a._eepromHeadPtr = b._eepromHeadPtr ∧ a.EEPROM = b.EEPROM := by
  unfold history at h
  simp only [Prod.mk.injEq] at h
  exact h

/-- What `updateBuffers` does to the write counter and to the persistent ring: on the
tenth commit the counter restarts and the ring is what `writeToEEPROM` makes it, else the
counter advances and the ring is untouched. -/
theorem updateBuffers_store (v : ℚ) (s : SmartUltrasonic) :
    (updateBuffers v s)._writeCounter
        = (if s._writeCounter + 1 ≥ 10 then 0 else s._writeCounter + 1)
    ∧ persistent (updateBuffers v s)
        = (if s._writeCounter + 1 ≥ 10 then persistent (writeToEEPROM v s)
          else persistent s) := by
  unfold updateBuffers writeToEEPROM persistent
  dsimp only
  by_cases hw : s._writeCounter + 1 ≥ 10
  · simp [if_pos hw]
  · simp [if_neg hw]

/-- The fields of the persistent ring, read off an equation between rings. -/
theorem persistent_fields (a b : SmartUltrasonic) (h : persistent a = persistent b) :
    a._eepromStartAddr = b._eepromStartAddr ∧ a._eepromHeadPtr = b._eepromHeadPtr
    ∧ a.EEPROM = b.EEPROM := by
  unfold persistent at h
  simp only [Prod.mk.injEq] at h
  exact h

/-- For a head pointer in `[0, 250)` the advanced head is `(head + 1) mod 250`. -/
theorem tmod_head_eq (i : Int) (h0 : 0 ≤ i) : Int.tmod (i + 1) 250 = (i + 1) % 250 :=
  Int.tmod_eq_emod (by omega) (by decide)

/-- The head pointer after `writeToEEPROM`. -/
theorem writeToEEPROM_head (v : ℚ) (s : SmartUltrasonic) :
    (writeToEEPROM v s)._eepromHeadPtr = Int.tmod (s._eepromHeadPtr + 1) 250 := rfl

/-- The cursor set by `begin` is 0, its full flag is set, its head pointer is in
`[0, 250)`, and the write counter is as it was. -/
theorem begin_fields (s : SmartUltrasonic) :
    (begin s)._ramBufferIndex = 0 ∧ (begin s)._ramBufferFull = true
    ∧ (0 ≤ (begin s)._eepromHeadPtr ∧ (begin s)._eepromHeadPtr < 250)
    ∧ (begin s)._writeCounter = s._writeCounter
    ∧ (begin s).EEPROM = s.EEPROM
    ∧ (begin s)._eepromStartAddr = s._eepromStartAddr := by
  refine ⟨rfl, rfl, ?_, rfl, rfl, rfl⟩
  show 0 ≤ (if ((s.EEPROM s._eepromStartAddr).val : Int) ≥ 250 then (0 : Int)
      else ((s.EEPROM s._eepromStartAddr).val : Int))
    ∧ (if ((s.EEPROM s._eepromStartAddr).val : Int) ≥ 250 then (0 : Int)
      else ((s.EEPROM s._eepromStartAddr).val : Int)) < 250
  split <;> omega

/-- Every call leaves a cursor that is in `[0, 8)` in `[0, 8)`. -/
theorem step_cursor_range (o : Op) (s : SmartUltrasonic)
    (h : 0 ≤ s._ramBufferIndex ∧ s._ramBufferIndex < 8) :
    0 ≤ (step o s)._ramBufferIndex ∧ (step o s)._ramBufferIndex < 8 := by
  rcases history_step o s with e | ⟨v, e⟩ | e
  · rw [(history_fields _ _ e).2.1]
    exact h
  · rw [(history_fields _ _ e).2.1]
    exact updateBuffers_index_range v s h.1
  · rw [(history_fields _ _ e).2.1, (begin_fields s).1]
    decide

/-- Every call keeps the ring-index invariant. -/
theorem ringInv_step (o : Op) (s : SmartUltrasonic) (h : ringInv s) : ringInv (step o s) := by
  obtain ⟨hh, hc, hw⟩ := h
  refine ⟨?_, step_cursor_range o s hc, ?_⟩
  · rcases history_step o s with e | ⟨v, e⟩ | e
    · rw [(history_fields _ _ e).2.2.2.2.1]
      exact hh
    · rw [(history_fields _ _ e).2.2.2.2.1]
      have hp := (updateBuffers_store v s).2
      by_cases hw10 : s._writeCounter + 1 ≥ 10
      · rw [if_pos hw10] at hp
        rw [(persistent_fields _ _ hp).2.1, writeToEEPROM_head, tmod_head_eq _ hh.1]
        show 0 ≤ (s._eepromHeadPtr + 1) % 250 ∧ (s._eepromHeadPtr + 1) % 250 < 250
        omega
      · rw [if_neg hw10] at hp
        rw [(persistent_fields _ _ hp).2.1]
        exact hh
    · rw [(history_fields _ _ e).2.2.2.2.1]
      exact (begin_fields s).2.2.1
  · rcases history_step o s with e | ⟨v, e⟩ | e
    · rw [(history_fields _ _ e).2.2.2.1]
      exact hw
    · rw [(history_fields _ _ e).2.2.2.1, (updateBuffers_store v s).1]
      have h0 := hw.1
      have h1 := hw.2
      show 0 ≤ (if s._writeCounter + 1 ≥ 10 then (0 : Int) else s._writeCounter + 1)
        ∧ (if s._writeCounter + 1 ≥ 10 then (0 : Int) else s._writeCounter + 1) < 10
      split <;> omega
    · rw [(history_fields _ _ e).2.2.2.1, (begin_fields s).2.2.2.1]
      exact hw

/-- Every run of calls keeps the ring-index invariant. -/
theorem ringInv_run (ops : List Op) (s : SmartUltrasonic) (h : ringInv s) :
    ringInv (run ops s) := by
  induction ops generalizing s with
  | nil => exact h
  | cons o ops ih => exact ih (step o s) (ringInv_step o s h)

/-- The constructed driver satisfies the ring-index invariant. -/
theorem ringInv_ctor (trigPin echoPin : Nat) (isMobileSystem : Bool) (eepromAddr : Int)
    (ram : Int → ℚ) (cells : Int → Fin 256) :
    ringInv (ctor trigPin echoPin isMobileSystem eepromAddr ram cells) := by
  have h250 : (0 : Int) < 250 := by decide
  have h8 : (0 : Int) < 8 := by decide
  have h10 : (0 : Int) < 10 := by decide
  exact ⟨⟨le_refl (0 : Int), h250⟩, ⟨le_refl (0 : Int), h8⟩, ⟨le_refl (0 : Int), h10⟩⟩

/-- The byte of an integer in `[0, 256)` is the integer. -/
theorem toByte_val (z : Int) (h0 : 0 ≤ z) (h1 : z < 256) : ((toByte z).val : Int) = z := by
  unfold toByte
  show (((z % 256).toNat : Nat) : Int) = z
  omega

/-- The cells of the store after `writeToEEPROM`: the head cell holds the new head, the
data cell under the old head holds the quantised value, every other cell is as it was. -/
theorem writeToEEPROM_store (v : ℚ) (s : SmartUltrasonic) (a : Int) :
    (writeToEEPROM v s).EEPROM a
      = if a = s._eepromStartAddr then toByte (Int.tmod (s._eepromHeadPtr + 1) 250)
        else if a = s._eepromStartAddr + 1 + s._eepromHeadPtr then toByte (round_c (v / 2))
        else s.EEPROM a := by
  unfold writeToEEPROM
  simp only [Function.update_apply]

/-- Every call leaves the base offset of the persistent ring as it was. -/
theorem step_startAddr (o : Op) (s : SmartUltrasonic) :
    (step o s)._eepromStartAddr = s._eepromStartAddr := by
  cases o with
  | begin => rfl
  | startMeasurement now =>
    show (startMeasurement now s)._eepromStartAddr = _
    unfold startMeasurement
    split <;> rfl
  | update now =>
    show (update now s)._eepromStartAddr = _
    unfold update startMeasurement
    dsimp only
    split <;> split <;> (try split) <;> rfl
  | handleInterrupt echo us =>
    show (handleInterrupt echo us s)._eepromStartAddr = _
    unfold handleInterrupt
    split <;> split <;> rfl
  | getReading now =>
    show (getReading now s).2._eepromStartAddr = _
    have hp : (predictValue s).2._eepromStartAddr = s._eepromStartAddr := by
      unfold predictValue
      split <;> rfl
    by_cases hs : s._state = SensorState.DONE
    · by_cases hd : s._duration = 0 ∨ (s._duration : ℚ) * 0.0343 / 2.0 > 450
          ∨ (s._duration : ℚ) * 0.0343 / 2.0 < 2
      · rw [getReading_invalid now s hs hd]
        split <;> exact hp
      · rw [getReading_valid now s hs hd]
        exact (updateBuffers_frame _ s).2.2.2.2
    · rw [getReading_of_not_done now s hs]
  | verifyLastPrediction m => rfl

/-- A call from a state with its head pointer in `[0, 250)` changes no cell of the store
outside the window of the ring, the head cell at the base offset and the 250 data cells
after it. -/
theorem step_store_window (o : Op) (s : SmartUltrasonic)
    (hh : 0 ≤ s._eepromHeadPtr ∧ s._eepromHeadPtr < 250) (a : Int)
    (ha : a < s._eepromStartAddr ∨ s._eepromStartAddr + 250 < a) :
    (step o s).EEPROM a = s.EEPROM a := by
  rcases history_step o s with e | ⟨v, e⟩ | e
  · rw [(history_fields _ _ e).2.2.2.2.2]
  · rw [(history_fields _ _ e).2.2.2.2.2]
    have hp := (updateBuffers_store v s).2
    by_cases hw10 : s._writeCounter + 1 ≥ 10
    · rw [if_pos hw10] at hp
      rw [(persistent_fields _ _ hp).2.2, writeToEEPROM_store,
        if_neg (by omega), if_neg (by omega)]
    · rw [if_neg hw10] at hp
      rw [(persistent_fields _ _ hp).2.2]
  · rw [(history_fields _ _ e).2.2.2.2.2, (begin_fields s).2.2.2.2.1]

/-- C19: in every state reachable from construction by calls of `begin`,
`startMeasurement`, `update`, `handleInterrupt`, `getReading` and `verifyLastPrediction`,
for any contents of the store, the head pointer is in `[0, 250)`, the cursor in `[0, 8)`
and the write counter in `[0, 10)`.  Hence the RAM indices the estimator and the commit use
are in `[0, 8)` and the loops of `calculateStdDev` stay below 8; the data cells `begin`
reads and `writeToEEPROM` writes are `base + 1 + k` with `0 ≤ k < 250`; no call changes a
cell outside the head cell and those data cells; and after a write the persisted head byte
is the head pointer in memory. -/
theorem ring_index_invariant (trigPin echoPin : Nat) (isMobileSystem : Bool)
    (eepromAddr : Int) (ram : Int → ℚ) (cells : Int → Fin 256) (ops : List Op)
    (s : SmartUltrasonic)
    (hs : s = run ops (ctor trigPin echoPin isMobileSystem eepromAddr ram cells)) :
    (0 ≤ s._eepromHeadPtr ∧ s._eepromHeadPtr < 250)
    ∧ (0 ≤ s._ramBufferIndex ∧ s._ramBufferIndex < 8)
    ∧ (0 ≤ s._writeCounter ∧ s._writeCounter < 10)
    ∧ (0 ≤ Int.tmod (s._ramBufferIndex - 1 + 8) 8 ∧ Int.tmod (s._ramBufferIndex - 1 + 8) 8 < 8)
    ∧ (0 ≤ Int.tmod (s._ramBufferIndex - 2 + 8) 8 ∧ Int.tmod (s._ramBufferIndex - 2 + 8) 8 < 8)
    ∧ (if s._ramBufferFull then (8 : Int) else s._ramBufferIndex) ≤ 8
    ∧ (∀ i : Nat, i < 8 →
        (0 ≤ (8 : Int) - 1 - i ∧ (8 : Int) - 1 - i < 8)
        ∧ 0 ≤ Int.tmod ((begin s)._eepromHeadPtr - 1 - (i : Int) + 250) 250
        ∧ Int.tmod ((begin s)._eepromHeadPtr - 1 - (i : Int) + 250) 250 < 250)
    ∧ (∀ (o : Op) (a : Int), (a < s._eepromStartAddr ∨ s._eepromStartAddr + 250 < a) →
        (step o s).EEPROM a = s.EEPROM a)
    ∧ (∀ v : ℚ, (((writeToEEPROM v s).EEPROM s._eepromStartAddr).val : Int)
        = (writeToEEPROM v s)._eepromHeadPtr) := by
  have hinv : ringInv s := by
    rw [hs]
    exact ringInv_run ops _ (ringInv_ctor trigPin echoPin isMobileSystem eepromAddr ram cells)
  obtain ⟨hh, hc, hw⟩ := hinv
  have hh1 : s._eepromHeadPtr < 250 := hh.2
  have hc1 : s._ramBufferIndex < 8 := hc.2
  have hw1 : s._writeCounter < 10 := hw.2
  refine ⟨⟨hh.1, hh1⟩, ⟨hc.1, hc1⟩, ⟨hw.1, hw1⟩, ?_, ?_, ?_, ?_, ?_, ?_⟩
  · rw [Int.tmod_eq_emod (by omega) (by decide)]
    omega
  · rw [Int.tmod_eq_emod (by omega) (by decide)]
    omega
  · split <;> omega
  · intro i hi
    have hb := (begin_fields s).2.2.1
    rw [Int.tmod_eq_emod (by omega) (by decide)]
    omega
  · intro o a ha
    exact step_store_window o s ⟨hh.1, hh1⟩ a ha
  · intro v
    rw [writeToEEPROM_store, if_pos rfl, writeToEEPROM_head, tmod_head_eq _ hh.1]
    exact toByte_val _ (by omega) (by omega)

/-- C19 witness: a mobile driver begun on a store whose head byte is corrupt (255), then run
through one measured cycle: head 0, cursor 1, counter 1. -/
theorem ring_index_invariant_witness :
    (0 ≤ (run [Op.begin, Op.startMeasurement 0, Op.handleInterrupt true 100,
        Op.handleInterrupt false 1100, Op.getReading 5]
        (ctor 9 10 true 0 (fun _ => 0) (fun _ => 255)))._eepromHeadPtr
      ∧ (run [Op.begin, Op.startMeasurement 0, Op.handleInterrupt true 100,
        Op.handleInterrupt false 1100, Op.getReading 5]
        (ctor 9 10 true 0 (fun _ => 0) (fun _ => 255)))._eepromHeadPtr < 250)
    ∧ (0 ≤ (run [Op.begin, Op.startMeasurement 0, Op.handleInterrupt true 100,
        Op.handleInterrupt false 1100, Op.getReading 5]
        (ctor 9 10 true 0 (fun _ => 0) (fun _ => 255)))._ramBufferIndex
      ∧ (run [Op.begin, Op.startMeasurement 0, Op.handleInterrupt true 100,
        Op.handleInterrupt false 1100, Op.getReading 5]
        (ctor 9 10 true 0 (fun _ => 0) (fun _ => 255)))._ramBufferIndex < 8) :=
  let r := ring_index_invariant 9 10 true 0 (fun _ => 0) (fun _ => 255)
    [Op.begin, Op.startMeasurement 0, Op.handleInterrupt true 100,
      Op.handleInterrupt false 1100, Op.getReading 5] _ rfl
  ⟨r.1, r.2.1⟩

end SmartUltrasonic

/-! ## Once full, always full -/

namespace SmartUltrasonic

/-- A full ring is full after any call. -/
theorem step_full (o : Op) (s : SmartUltrasonic) (h : s._ramBufferFull = true) :
    (step o s)._ramBufferFull = true := by
  rcases history_step o s with e | ⟨v, e⟩ | e
  · rw [(history_fields _ _ e).2.2.1]
    exact h
  · rw [(history_fields _ _ e).2.2.1, (updateBuffers_ring v s).2.2.1, h]
    rfl
  · rw [(history_fields _ _ e).2.2.1]
    exact (begin_fields s).2.1

/-- After `begin` and any run of calls the ring is full and its cursor is in `[0, 8)`. -/
theorem run_after_begin (ops : List Op) (s : SmartUltrasonic)
    (hf : s._ramBufferFull = true) (hc : 0 ≤ s._ramBufferIndex ∧ s._ramBufferIndex < 8) :
    (run ops s)._ramBufferFull = true
    ∧ 0 ≤ (run ops s)._ramBufferIndex ∧ (run ops s)._ramBufferIndex < 8 := by
  induction ops generalizing s with
  | nil => exact ⟨hf, hc⟩
  | cons o ops ih => exact ih (step o s) (step_full o s hf) (step_cursor_range o s hc)

/-- The clamp into `[2, 450]` lands in `[2, 450]`. -/
theorem constrain_range (x : ℚ) : 2 ≤ constrain x 2 450 ∧ constrain x 2 450 ≤ 450 := by
  unfold constrain
  split_ifs with h1 h2
  · exact ⟨le_refl _, by norm_num⟩
  · exact ⟨by norm_num, le_refl _⟩
  · exact ⟨by linarith, by linarith⟩

/-- The confidence of a root is one of the four tiers, never 0. -/
theorem calculateConfidence_ne_zero (x : Root) : calculateConfidence x ≠ 0 := by
  unfold calculateConfidence
  split_ifs <;> decide

/-- The prediction from a full ring with its cursor in `[0, 8)`: the clamped linear
extrapolation of the slots `(cursor - 1) mod 8` and `(cursor - 2) mod 8`. -/
theorem predictValue_full (s : SmartUltrasonic) (hf : s._ramBufferFull = true)
    (hc : 0 ≤ s._ramBufferIndex ∧ s._ramBufferIndex < 8) :
    (predictValue s).1.distance
      = constrain (s._ramBuffer ((s._ramBufferIndex - 1) % 8)
          + (s._ramBuffer ((s._ramBufferIndex - 1) % 8)
            - s._ramBuffer ((s._ramBufferIndex - 2) % 8))) 2 450
    ∧ (predictValue s).1.confidence = calculateConfidence (calculateStdDev s) := by
  have e1 : Int.tmod (s._ramBufferIndex - 1 + 8) 8 = (s._ramBufferIndex - 1) % 8 := by
    rw [Int.tmod_eq_emod (by omega) (by decide)]
    omega
  have e2 : Int.tmod (s._ramBufferIndex - 2 + 8) 8 = (s._ramBufferIndex - 2) % 8 := by
    rw [Int.tmod_eq_emod (by omega) (by decide)]
    omega
  refine ⟨?_, predictValue_confidence s (Or.inl hf)⟩
  unfold predictValue
  rw [if_neg (by rw [hf]; simp)]
  show constrain _ 2 450 = _
  rw [e1, e2]

/-- C20: a full history buffer stays full under every call; `begin` marks it full; so in
every state reached from a `begin` by any run of calls the buffer is full, `predictValue`
does not take the no-data branch (its reading is not `{450, 0, true, false}`), and every
invalid cycle yields the linear extrapolation of the RAM slots `(cursor - 1) mod 8` and
`(cursor - 2) mod 8` clamped into `[2, 450]`, a distance within `[2, 450]`. -/
theorem full_after_begin (s0 : SmartUltrasonic) (ops : List Op) (s : SmartUltrasonic)
    (hs : s = run ops (begin s0)) :
    (∀ (r : SmartUltrasonic) (o : Op), r._ramBufferFull = true →
        (step o r)._ramBufferFull = true)
    ∧ (begin s0)._ramBufferFull = true
    ∧ s._ramBufferFull = true
    ∧ ¬ ((!s._ramBufferFull) = true ∧ s._ramBufferIndex < 2)
    ∧ (predictValue s).1 ≠ ⟨450, 0, true, false⟩
    ∧ (predictValue s).1.distance
        = max 2 (min 450 (s._ramBuffer ((s._ramBufferIndex - 1) % 8)
            + (s._ramBuffer ((s._ramBufferIndex - 1) % 8)
              - s._ramBuffer ((s._ramBufferIndex - 2) % 8))))
    ∧ (2 ≤ (predictValue s).1.distance ∧ (predictValue s).1.distance ≤ 450)
    ∧ (∀ now : Nat, s._state = SensorState.DONE →
        (s._duration = 0 ∨ (s._duration : ℚ) * 0.0343 / 2 < 2
          ∨ (s._duration : ℚ) * 0.0343 / 2 > 450) →
        (getReading now s).1 = (predictValue s).1) := by
  have hb := begin_fields s0
  have hr : s._ramBufferFull = true
      ∧ 0 ≤ s._ramBufferIndex ∧ s._ramBufferIndex < 8 := by
    rw [hs]
    exact run_after_begin ops (begin s0) hb.2.1 (by rw [hb.1]; decide)
  obtain ⟨hf, hc⟩ := hr
  have hp := predictValue_full s hf hc
  refine ⟨fun r o h => step_full o r h, hb.2.1, hf, ?_, ?_, ?_, ?_, ?_⟩
  · rw [hf]
    simp
  · intro he
    have h0 : (predictValue s).1.confidence = 0 := by rw [he]
    rw [hp.2] at h0
    exact calculateConfidence_ne_zero _ h0
  · rw [hp.1]
    exact constrain_eq_clamp _
  · rw [hp.1]
    exact constrain_range _
  · intro now hd hv
    have hv2 : s._duration = 0 ∨ (s._duration : ℚ) * 0.0343 / 2.0 > 450
        ∨ (s._duration : ℚ) * 0.0343 / 2.0 < 2 := by
      have e : (2.0 : ℚ) = 2 := by norm_num
      rw [e]
      rcases hv with h | h | h
      · exact Or.inl h
      · exact Or.inr (Or.inr h)
      · exact Or.inr (Or.inl h)
    rw [getReading_invalid now s hd hv2]
    split <;> rfl

/-- C20 witness: a driver begun on an empty store (all cells 0) and timed out once: the
buffer is full and the prediction is the clamped extrapolation of two zero slots, 2. -/
theorem full_after_begin_witness :
    (run [Op.startMeasurement 0, Op.update 36]
        (begin (ctor 9 10 true 0 (fun _ => 0) (fun _ => 0))))._ramBufferFull = true
    ∧ (2 ≤ (predictValue (run [Op.startMeasurement 0, Op.update 36]
        (begin (ctor 9 10 true 0 (fun _ => 0) (fun _ => 0))))).1.distance
      ∧ (predictValue (run [Op.startMeasurement 0, Op.update 36]
        (begin (ctor 9 10 true 0 (fun _ => 0) (fun _ => 0))))).1.distance ≤ 450) :=
  let r := full_after_begin (ctor 9 10 true 0 (fun _ => 0) (fun _ => 0))
    [Op.startMeasurement 0, Op.update 36] _ rfl
  ⟨r.2.2.1, r.2.2.2.2.2.2.1⟩

end SmartUltrasonic

/-! ## Every tenth commit is persisted -/

namespace SmartUltrasonic

/-- A run of commits followed by one more is the commit applied to the run. -/
theorem pushAll_append_one (vs : List ℚ) (v : ℚ) (s : SmartUltrasonic) :
    pushAll (vs ++ [v]) s = updateBuffers v (pushAll vs s) := by
  unfold pushAll
  rw [List.foldl_append]
  rfl

/-- The values persisted by a run of commits followed by one more. -/
theorem pushAllWrites_append_one (vs : List ℚ) (v : ℚ) (s : SmartUltrasonic) :
    pushAllWrites (vs ++ [v]) s = pushAllWrites vs s ++ updateBuffersWrites v (pushAll vs s) := by
  induction vs generalizing s with
  | nil => simp [pushAllWrites, pushAll]
  | cons w ws ih =>
    show updateBuffersWrites w s ++ pushAllWrites (ws ++ [v]) (updateBuffers w s) = _
    rw [ih (updateBuffers w s)]
    simp [pushAllWrites, pushAll, List.append_assoc]

/-- A run of writes followed by one more is the write applied to the run. -/
theorem writeAll_append_one (xs : List ℚ) (x : ℚ) (s : SmartUltrasonic) :
    writeAll (xs ++ [x]) s = writeToEEPROM x (writeAll xs s) := by
  unfold writeAll
  rw [List.foldl_append]
  rfl

/-- The effect of `writeToEEPROM` on the persistent ring depends on the persistent ring
only. -/
theorem writeToEEPROM_persistent_congr (v : ℚ) (a b : SmartUltrasonic)
    (h : persistent a = persistent b) :
    persistent (writeToEEPROM v a) = persistent (writeToEEPROM v b) := by
  obtain ⟨h1, h2, h3⟩ := persistent_fields a b h
  unfold persistent writeToEEPROM
  simp only [h1, h2, h3]

/-- From a write counter of 0, the counter after `n` commits is `n mod 10`. -/
theorem pushAll_writeCounter (vs : List ℚ) (s : SmartUltrasonic) (hw : s._writeCounter = 0) :
    (pushAll vs s)._writeCounter = ((vs.length % 10 : Nat) : Int) := by
  induction vs using List.reverseRecOn with
  | nil => simpa [pushAll] using hw
  | append_singleton l a ih =>
    rw [pushAll_append_one, (updateBuffers_store a (pushAll l s)).1, ih,
      List.length_append, List.length_singleton]
    split <;> omega

/-- From a write counter of 0 and a head pointer `h0` in `[0, 250)`: the values persisted
by `n` commits are the tenth, twentieth, ... readings, the head pointer ends at
`(h0 + n / 10) mod 250`, and the persistent ring is the one those writes make. -/
theorem pushAll_persisted (s : SmartUltrasonic) (hw : s._writeCounter = 0)
    (hh : 0 ≤ s._eepromHeadPtr ∧ s._eepromHeadPtr < 250) (vs : List ℚ) :
    pushAllWrites vs s = (List.range (vs.length / 10)).map (fun (k : Nat) => vs.getD (10 * k + 9) 0)
    ∧ (pushAll vs s)._eepromHeadPtr = (s._eepromHeadPtr + ((vs.length / 10 : Nat) : Int)) % 250
    ∧ persistent (pushAll vs s) = persistent (writeAll (pushAllWrites vs s) s) := by
  induction vs using List.reverseRecOn with
  | nil =>
    refine ⟨rfl, ?_, rfl⟩
    show s._eepromHeadPtr = (s._eepromHeadPtr + ((0 / 10 : Nat) : Int)) % 250
    norm_num
    omega
  | append_singleton l a ih =>
    obtain ⟨ih1, ih2, ih3⟩ := ih
    have hc := pushAll_writeCounter l s hw
    have hst := (updateBuffers_store a (pushAll l s)).2
    have hlen : (l ++ [a]).length = l.length + 1 := by
      rw [List.length_append, List.length_singleton]
    have hmap : ∀ n : Nat, n ≤ l.length / 10 →
        (List.range n).map (fun (k : Nat) => (l ++ [a]).getD (10 * k + 9) 0)
          = (List.range n).map (fun (k : Nat) => l.getD (10 * k + 9) 0) := by
      intro n hn
      apply List.map_congr_left
      intro k hk
      rw [List.mem_range] at hk
      exact List.getD_append l [a] 0 (10 * k + 9) (by omega)
    rw [pushAll_append_one, pushAllWrites_append_one, hlen]
    by_cases h9 : l.length % 10 = 9
    · have hw10 : (pushAll l s)._writeCounter + 1 ≥ 10 := by
        rw [hc]
        omega
      have hdiv : (l.length + 1) / 10 = l.length / 10 + 1 := by omega
      have hlast : 10 * (l.length / 10) + 9 = l.length := by omega
      rw [if_pos hw10] at hst
      have hwr : updateBuffersWrites a (pushAll l s) = [a] := by
        unfold updateBuffersWrites
        rw [if_pos hw10]
      refine ⟨?_, ?_, ?_⟩
      · rw [hwr, hdiv, List.range_succ, List.map_append, hmap _ (le_refl _), ih1,
          List.map_singleton, hlast, List.getD_append_right l [a] 0 l.length (le_refl _),
          Nat.sub_self]
        rfl
      · rw [(persistent_fields _ _ hst).2.1, writeToEEPROM_head, ih2,
          tmod_head_eq _ (by omega), hdiv]
        push_cast
        omega
      · rw [hst, hwr, writeAll_append_one]
        exact writeToEEPROM_persistent_congr a _ _ ih3
    · have hw10 : ¬ (pushAll l s)._writeCounter + 1 ≥ 10 := by
        rw [hc]
        omega
      have hdiv : (l.length + 1) / 10 = l.length / 10 := by omega
      rw [if_neg hw10] at hst
      have hwr : updateBuffersWrites a (pushAll l s) = [] := by
        unfold updateBuffersWrites
        rw [if_neg hw10]
      refine ⟨?_, ?_, ?_⟩
      · rw [hwr, hdiv, List.append_nil, hmap _ (le_refl _), ih1]
      · rw [(persistent_fields _ _ hst).2.1, ih2, hdiv]
      · rw [hst, hwr, List.append_nil]
        exact ih3

/-- C11: from a write counter of 0 and a head pointer `h0`, while `n` readings are
committed through `updateBuffers`, the `i`-th commit (`i` from 1) hands its reading to
`writeToEEPROM` once when `i` is a multiple of 10 and not at all otherwise; so there are
`n / 10` writes, the `k`-th one holds the reading number `10 k`, the persistent ring is
what those writes make of it, and the head pointer ends at `(h0 + n / 10) mod 250`. -/
theorem eeprom_write_every_tenth (s : SmartUltrasonic) (hw : s._writeCounter = 0)
    (hh : 0 ≤ s._eepromHeadPtr ∧ s._eepromHeadPtr < 250) (vs : List ℚ) :
    (∀ i : Nat, i < vs.length →
        updateBuffersWrites (vs.getD i 0) (pushAll (vs.take i) s)
          = if (i + 1) % 10 = 0 then [vs.getD i 0] else [])
    ∧ (∀ i : Nat, i < vs.length →
        persistent (pushAll (vs.take (i + 1)) s)
          = if (i + 1) % 10 = 0 then
              persistent (writeToEEPROM (vs.getD i 0) (pushAll (vs.take i) s))
            else persistent (pushAll (vs.take i) s))
    ∧ (pushAllWrites vs s).length = vs.length / 10
    ∧ (∀ k : Nat, k < vs.length / 10 →
        (pushAllWrites vs s).getD k 0 = vs.getD (10 * (k + 1) - 1) 0)
    ∧ persistent (pushAll vs s) = persistent (writeAll (pushAllWrites vs s) s)
    ∧ (pushAll vs s)._eepromHeadPtr
        = (s._eepromHeadPtr + ((vs.length / 10 : Nat) : Int)) % 250 := by
  obtain ⟨h1, h2, h3⟩ := pushAll_persisted s hw hh vs
  have hcnt : ∀ i : Nat, i < vs.length →
      ((pushAll (vs.take i) s)._writeCounter + 1 ≥ 10 ↔ (i + 1) % 10 = 0) := by
    intro i hi
    rw [pushAll_writeCounter (vs.take i) s hw, List.length_take, min_eq_left (le_of_lt hi)]
    omega
  refine ⟨?_, ?_, ?_, ?_, h3, h2⟩
  · intro i hi
    unfold updateBuffersWrites
    by_cases h10 : (i + 1) % 10 = 0
    · rw [if_pos ((hcnt i hi).mpr h10), if_pos h10]
    · rw [if_neg (fun h => h10 ((hcnt i hi).mp h)), if_neg h10]
  · intro i hi
    have ht : vs.take (i + 1) = vs.take i ++ [vs.getD i 0] := by
      rw [List.getD_eq_getElem vs 0 hi, List.take_succ, List.getElem?_eq_getElem hi]
      rfl
    rw [ht, pushAll_append_one, (updateBuffers_store _ _).2]
    by_cases h10 : (i + 1) % 10 = 0
    · rw [if_pos ((hcnt i hi).mpr h10), if_pos h10]
    · rw [if_neg (fun h => h10 ((hcnt i hi).mp h)), if_neg h10]
  · rw [h1, List.length_map, List.length_range]
  · intro k hk
    rw [h1, List.getD_eq_getElem _ 0 (by rw [List.length_map, List.length_range]; exact hk),
      List.getElem_map, List.getElem_range]
    have e : 10 * (k + 1) - 1 = 10 * k + 9 := by omega
    rw [e]

/-- C11 witness: 25 commits of the readings 1, 2, ..., 25 onto a fresh driver persist the
readings 10 and 20 and leave the head pointer at 2. -/
theorem eeprom_write_every_tenth_witness :
    pushAllWrites ((List.range 25).map (fun (i : Nat) => ((i : ℚ) + 1)))
        (ctor 9 10 true 0 (fun _ => 0) (fun _ => 0)) = [10, 20]
    ∧ (pushAll ((List.range 25).map (fun (i : Nat) => ((i : ℚ) + 1)))
        (ctor 9 10 true 0 (fun _ => 0) (fun _ => 0)))._eepromHeadPtr = 2 := by
  have h := eeprom_write_every_tenth (ctor 9 10 true 0 (fun _ => 0) (fun _ => 0)) rfl
    ⟨le_refl (0 : Int), by decide⟩ ((List.range 25).map (fun (i : Nat) => ((i : ℚ) + 1)))
  obtain ⟨_, _, hlen, hk, _, hhead⟩ := h
  have hl : ((List.range 25).map (fun (i : Nat) => ((i : ℚ) + 1))).length = 25 := by simp
  rw [hl] at hlen hk hhead
  refine ⟨?_, ?_⟩
  · have h0 := hk 0 (by decide)
    have h1 := hk 1 (by decide)
    match hm : pushAllWrites ((List.range 25).map (fun (i : Nat) => ((i : ℚ) + 1)))
        (ctor 9 10 true 0 (fun _ => 0) (fun _ => 0)), hlen, h0, h1 with
    | [a, b], _, h0, h1 =>
      simp [List.getD, List.range_succ] at h0 h1
      norm_num at h0 h1
      rw [h0, h1]
  · rw [hhead]
    decide

end SmartUltrasonic

/-! ## The persistent ring: load and round trip -/

namespace SmartUltrasonic

/-- The loop of `loadFromEEPROM`: filling the slots `7 - i` for `i` from 0 to 7 leaves in
slot `j` the value computed for `i = 7 - j`. -/
theorem load_loop (f : Nat → ℚ) (buf : Int → ℚ) (j : Nat) (hj : j < 8) :
    (List.range 8).foldl
        (fun (b : Int → ℚ) (i : Nat) => Function.update b ((8 : Int) - 1 - (i : Int)) (f i))
        buf (j : Int)
      = f (7 - j) := by
  have e : List.range 8 = [0, 1, 2, 3, 4, 5, 6, 7] := by decide
  rw [e]
  simp only [List.foldl_cons, List.foldl_nil, Function.update_apply]
  interval_cases j <;> norm_num

/-- What `loadFromEEPROM` leaves: the head pointer is the persisted head byte, or 0 when
that byte is 250 or more; slot `j` of the RAM ring holds twice the data byte
`(head - 8 + j) mod 250`; the cursor is 0 and the ring is marked full. -/
theorem loadFromEEPROM_spec (s : SmartUltrasonic) :
    (loadFromEEPROM s)._eepromHeadPtr
        = (if ((s.EEPROM s._eepromStartAddr).val : Int) ≥ 250 then 0
          else ((s.EEPROM s._eepromStartAddr).val : Int))
    ∧ (∀ j : Nat, j < 8 →
        (loadFromEEPROM s)._ramBuffer (j : Int)
          = 2 * (((s.EEPROM (s._eepromStartAddr + 1
              + ((loadFromEEPROM s)._eepromHeadPtr - 8 + (j : Int)) % 250)).val : Nat) : ℚ))
    ∧ (loadFromEEPROM s)._ramBufferIndex = 0
    ∧ (loadFromEEPROM s)._ramBufferFull = true := by
  refine ⟨rfl, ?_, rfl, rfl⟩
  intro j hj
  have hb := (begin_fields s).2.2.1
  have hh : (begin s)._eepromHeadPtr = (loadFromEEPROM s)._eepromHeadPtr := rfl
  rw [hh] at hb
  have hl := load_loop
    (fun (i : Nat) => (((s.EEPROM (s._eepromStartAddr + 1
      + Int.tmod ((loadFromEEPROM s)._eepromHeadPtr - 1 - (i : Int) + 250) 250)).val : Nat) : ℚ)
        * 2) s._ramBuffer j hj
  have haddr : Int.tmod ((loadFromEEPROM s)._eepromHeadPtr - 1 - ((7 - j : Nat) : Int) + 250) 250
      = ((loadFromEEPROM s)._eepromHeadPtr - 8 + (j : Int)) % 250 := by
    rw [Int.tmod_eq_emod (by omega) (by decide)]
    omega
  rw [mul_comm, ← haddr]
  exact hl

/-- The byte of an integer in `[0, 256)`, read as a rational, is the integer. -/
theorem toByte_val_rat (z : Int) (h0 : 0 ≤ z) (h1 : z < 256) :
    (((toByte z).val : Nat) : ℚ) = (z : ℚ) := by
  have h := toByte_val z h0 h1
  exact_mod_cast congrArg (Int.cast : Int → ℚ) h

/-- Rounding a non-negative rational moves it by at most one half. -/
theorem round_c_near (x : ℚ) (h0 : 0 ≤ x) :
    (round_c x : ℚ) - x ≤ 1 / 2 ∧ x - (round_c x : ℚ) < 1 / 2 := by
  unfold round_c
  rw [if_pos h0]
  have h1 := Int.floor_le (x + 1 / 2)
  have h2 := Int.lt_floor_add_one (x + 1 / 2)
  constructor <;> linarith

/-- The quantised value of a distance in `[2, 450]` is an integer in `[1, 225]`. -/
theorem round_c_quantised (v : ℚ) (hv : 2 ≤ v ∧ v ≤ 450) :
    1 ≤ round_c (v / 2) ∧ round_c (v / 2) ≤ 225 := by
  have h0 : (0 : ℚ) ≤ v / 2 := by linarith
  obtain ⟨h1, h2⟩ := round_c_near (v / 2) h0
  constructor
  · have : ((0 : Int) : ℚ) < (round_c (v / 2) : ℚ) := by
      push_cast
      linarith
    have h3 : (0 : Int) < round_c (v / 2) := by exact_mod_cast this
    omega
  · have : (round_c (v / 2) : ℚ) < ((226 : Int) : ℚ) := by
      push_cast
      linarith
    have h3 : round_c (v / 2) < (226 : Int) := by exact_mod_cast this
    omega

/-- After a write from a head pointer in `[0, 250)`, a load reads back the head pointer of
the write. -/
theorem load_after_write_head (v : ℚ) (s : SmartUltrasonic)
    (hh : 0 ≤ s._eepromHeadPtr ∧ s._eepromHeadPtr < 250) :
    (loadFromEEPROM (writeToEEPROM v s))._eepromHeadPtr = (s._eepromHeadPtr + 1) % 250 := by
  have hb : (writeToEEPROM v s)._eepromStartAddr = s._eepromStartAddr := rfl
  rw [(loadFromEEPROM_spec _).1, hb, writeToEEPROM_store, if_pos rfl, tmod_head_eq _ hh.1,
    toByte_val _ (by omega) (by omega)]
  rw [if_neg (by omega)]

/-- C12: for a distance `v` in `[2, 450]` and a head pointer in `[0, 250)`, `writeToEEPROM v`
followed by `loadFromEEPROM` leaves in RAM slot 7, the slot `predictValue` then reads as
the current sample, the value `w = 2 * round(v / 2)`, and `|w - v| ≤ 1`. -/
theorem persistence_round_trip (s : SmartUltrasonic) (v : ℚ) (hv : 2 ≤ v ∧ v ≤ 450)
    (hh : 0 ≤ s._eepromHeadPtr ∧ s._eepromHeadPtr < 250) :
    (loadFromEEPROM (writeToEEPROM v s))._ramBuffer 7 = 2 * (round_c (v / 2) : ℚ)
    ∧ |(loadFromEEPROM (writeToEEPROM v s))._ramBuffer 7 - v| ≤ 1
    ∧ Int.tmod ((loadFromEEPROM (writeToEEPROM v s))._ramBufferIndex - 1 + 8) 8 = 7 := by
  have hq := round_c_quantised v hv
  have hw : (loadFromEEPROM (writeToEEPROM v s))._ramBuffer 7 = 2 * (round_c (v / 2) : ℚ) := by
    have hb : (writeToEEPROM v s)._eepromStartAddr = s._eepromStartAddr := rfl
    have h7 := (loadFromEEPROM_spec (writeToEEPROM v s)).2.1 7 (by decide)
    have haddr : ((s._eepromHeadPtr + 1) % 250 - 8 + ((7 : Nat) : Int)) % 250
        = s._eepromHeadPtr := by omega
    rw [load_after_write_head v s hh, hb, haddr, writeToEEPROM_store,
      if_neg (by omega), if_pos rfl, toByte_val_rat _ (by omega) (by omega)] at h7
    exact_mod_cast h7
  have hcur : Int.tmod ((0 : Int) - 1 + 8) 8 = 7 := by decide
  refine ⟨hw, ?_, hcur⟩
  rw [hw, abs_le]
  obtain ⟨h1, h2⟩ := round_c_near (v / 2) (by linarith)
  constructor <;> linarith

/-- C12 witness: the distance 101 written at head 249 (the last slot, so the head wraps)
and loaded back is within 1 of 101. -/
theorem persistence_round_trip_witness :
    |(loadFromEEPROM (writeToEEPROM 101 { ctor 9 10 true 0 (fun _ => 0) (fun _ => 0) with
        _eepromHeadPtr := 249 }))._ramBuffer 7 - 101| ≤ 1 :=
  (persistence_round_trip { ctor 9 10 true 0 (fun _ => 0) (fun _ => 0) with
      _eepromHeadPtr := 249 } 101 ⟨by norm_num, by norm_num⟩
    ⟨by decide, by decide⟩).2.1

/-- The persistent ring after a run of `m` writes from a head pointer `h0` in `[0, 250)`:
the base offset is as it was, the head pointer is `(h0 + m) mod 250`, and for `i` below `m`
and below 250 the data cell `(h0 + m - 1 - i) mod 250` holds the quantised value of the
write number `m - i`. -/
theorem writeAll_cells (s : SmartUltrasonic)
    (hh : 0 ≤ s._eepromHeadPtr ∧ s._eepromHeadPtr < 250) (xs : List ℚ) :
    (writeAll xs s)._eepromStartAddr = s._eepromStartAddr
    ∧ (writeAll xs s)._eepromHeadPtr = (s._eepromHeadPtr + (xs.length : Int)) % 250
    ∧ (∀ i : Nat, i < xs.length → i < 250 →
        (writeAll xs s).EEPROM (s._eepromStartAddr + 1
            + (s._eepromHeadPtr + (xs.length : Int) - 1 - (i : Int)) % 250)
          = toByte (round_c (xs.getD (xs.length - 1 - i) 0 / 2))) := by
  induction xs using List.reverseRecOn with
  | nil =>
    refine ⟨rfl, ?_, ?_⟩
    · show s._eepromHeadPtr = (s._eepromHeadPtr + ((0 : Nat) : Int)) % 250
      omega
    · intro i hi
      exact absurd hi (by simp)
  | append_singleton l x ih =>
    obtain ⟨ih1, ih2, ih3⟩ := ih
    have hlen : (l ++ [x]).length = l.length + 1 := by
      rw [List.length_append, List.length_singleton]
    rw [writeAll_append_one, hlen]
    have hb : (writeToEEPROM x (writeAll l s))._eepromStartAddr
        = (writeAll l s)._eepromStartAddr := rfl
    refine ⟨by rw [hb, ih1], ?_, ?_⟩
    · rw [writeToEEPROM_head, ih2, tmod_head_eq _ (by omega)]
      push_cast
      omega
    · intro i hi hi250
      rw [writeToEEPROM_store, ih1, ih2, if_neg (by omega)]
      by_cases h0 : i = 0
      · subst h0
        rw [if_pos (by push_cast; omega)]
        have e : l.length + 1 - 1 - 0 = l.length := by omega
        rw [e, List.getD_append_right l [x] 0 l.length (le_refl _), Nat.sub_self]
        rfl
      · rw [if_neg (by push_cast; omega)]
        have hi1 : i - 1 < l.length := by omega
        have h3 := ih3 (i - 1) hi1 (by omega)
        have ea : (s._eepromHeadPtr + (l.length : Int) - 1 - ((i - 1 : Nat) : Int)) % 250
            = (s._eepromHeadPtr + ((l.length + 1 : Nat) : Int) - 1 - (i : Int)) % 250 := by
          push_cast
          omega
        have ei : l.length - 1 - (i - 1) = l.length + 1 - 1 - i := by omega
        rw [ea, ei] at h3
        rw [h3, List.getD_append l [x] 0 (l.length + 1 - 1 - i) (by omega)]

/-- C13: for every content of the store, `loadFromEEPROM` sets the head pointer `h` to the
persisted head byte, or to 0 when that byte is 250 or more, fills RAM slot `j` (`j` in
`0..7`) with twice the data byte `(h - 8 + j) mod 250`, sets the cursor to 0 and marks the
buffer full.  Hence after `m ≥ 8` writes `x1..xm` of distances in `[2, 450]` from a head
pointer in `[0, 250)`, wrapping or not, a load leaves `2 * round(x(m - 8 + j + 1) / 2)` in
slot `j`. -/
theorem load_reconstructs_recent (s : SmartUltrasonic) (xs : List ℚ)
    (hh : 0 ≤ s._eepromHeadPtr ∧ s._eepromHeadPtr < 250)
    (hx : ∀ x ∈ xs, 2 ≤ x ∧ x ≤ 450) (hm : 8 ≤ xs.length) :
    (∀ r : SmartUltrasonic,
        (loadFromEEPROM r)._eepromHeadPtr
            = (if ((r.EEPROM r._eepromStartAddr).val : Int) ≥ 250 then 0
              else ((r.EEPROM r._eepromStartAddr).val : Int))
        ∧ (∀ j : Nat, j < 8 →
            (loadFromEEPROM r)._ramBuffer (j : Int)
              = 2 * (((r.EEPROM (r._eepromStartAddr + 1
                  + ((loadFromEEPROM r)._eepromHeadPtr - 8 + (j : Int)) % 250)).val : Nat) : ℚ))
        ∧ (loadFromEEPROM r)._ramBufferIndex = 0
        ∧ (loadFromEEPROM r)._ramBufferFull = true)
    ∧ (∀ j : Nat, j < 8 →
        (loadFromEEPROM (writeAll xs s))._ramBuffer (j : Int)
          = 2 * (round_c (xs.getD (xs.length - 8 + j) 0 / 2) : ℚ)) := by
  refine ⟨loadFromEEPROM_spec, ?_⟩
  intro j hj
  obtain ⟨hb, hhead, hcells⟩ := writeAll_cells s hh xs
  -- the last write persisted the head pointer
  have hlast : (loadFromEEPROM (writeAll xs s))._eepromHeadPtr
      = (s._eepromHeadPtr + (xs.length : Int)) % 250 := by
    have hne : xs ≠ [] := by
      intro h
      rw [h] at hm
      exact absurd hm (by decide)
    obtain ⟨l, x, rfl⟩ : ∃ l x, xs = l ++ [x] :=
      ⟨xs.dropLast, xs.getLast hne, (List.dropLast_append_getLast hne).symm⟩
    rw [writeAll_append_one] at hhead ⊢
    have hin := (writeAll_cells s hh l).2.1
    rw [load_after_write_head x (writeAll l s) (by rw [hin]; omega), hin, List.length_append,
      List.length_singleton]
    push_cast
    omega
  have hj2 := (loadFromEEPROM_spec (writeAll xs s)).2.1 j hj
  have hc := hcells (7 - j) (by omega) (by omega)
  have ea : (s._eepromHeadPtr + (xs.length : Int) - 1 - ((7 - j : Nat) : Int)) % 250
      = ((s._eepromHeadPtr + (xs.length : Int)) % 250 - 8 + (j : Int)) % 250 := by
    omega
  have ei : xs.length - 1 - (7 - j) = xs.length - 8 + j := by omega
  rw [ea, ei] at hc
  have hmem : xs.getD (xs.length - 8 + j) 0 ∈ xs := by
    rw [List.getD_eq_getElem xs 0 (by omega)]
    exact List.getElem_mem _
  have hq := round_c_quantised _ (hx _ hmem)
  rw [hlast, hb, hc, toByte_val_rat _ (by omega) (by omega)] at hj2
  exact hj2

/-- C13 witness: nine writes from head 245, so that the ring wraps past slot 249; the
load leaves the quantised ninth value, 2 * round(90 / 2), in slot 7 and the quantised
second value in slot 0. -/
theorem load_reconstructs_recent_witness :
    (loadFromEEPROM (writeAll [10, 20, 30, 40, 50, 60, 70, 80, 90]
        { ctor 9 10 true 0 (fun _ => 0) (fun _ => 0) with _eepromHeadPtr := 245 }))._ramBuffer 7
      = 2 * (round_c (90 / 2) : ℚ)
    ∧ (loadFromEEPROM (writeAll [10, 20, 30, 40, 50, 60, 70, 80, 90]
        { ctor 9 10 true 0 (fun _ => 0) (fun _ => 0) with _eepromHeadPtr := 245 }))._ramBuffer 0
      = 2 * (round_c (20 / 2) : ℚ) := by
  have h := (load_reconstructs_recent
    { ctor 9 10 true 0 (fun _ => 0) (fun _ => 0) with _eepromHeadPtr := 245 }
    [10, 20, 30, 40, 50, 60, 70, 80, 90] ⟨by decide, by decide⟩
    (by
      intro x hx
      simp only [List.mem_cons, List.mem_singleton, List.not_mem_nil, or_false] at hx
      rcases hx with rfl | rfl | rfl | rfl | rfl | rfl | rfl | rfl | rfl <;> norm_num)
    (by decide)).2
  exact ⟨h 7 (by decide), h 0 (by decide)⟩

end SmartUltrasonic

/-! ## The confidence tier in binary32 arithmetic -/

namespace SmartUltrasonic

/-- Values of the binary32 operations at known points: one third, one tenth and the speed
constant as binary32 numbers, two ties above `2 ^ 24` going to the even significand, a
negative number, and the binary32 roots of 2 and of one million. -/
theorem binary32_values :
    fl32 (1 / 3) = 11184811 / 33554432
    ∧ fl32 (1 / 10) = 13421773 / 134217728
    ∧ fl32 (343 / 10000) = 1150917 / 33554432
    ∧ fl32 16777217 = 16777216
    ∧ fl32 16777219 = 16777220
    ∧ fl32 (-25 / 1000000) = -13743895 / 549755813888
    ∧ sqrt32 2 = 11863283 / 8388608
    ∧ sqrt32 1000000 = 1000 := by
  refine ⟨by decide!, by decide!, by decide!, by decide!, by decide!, by decide!,
    by decide!, by decide!⟩

end SmartUltrasonic

/-! ## The verification in binary32 arithmetic -/

namespace SmartUltrasonic

/-- C15, as the code has it: `verifyLastPrediction m` is true exactly when
`|m ⊖ (p ⊕ 10)| < 3`, strictly, for `p` the last prediction and `⊕`, `⊖` the sum and the
difference rounded to binary32; when `m` and `p` are binary32 values and neither operation
rounds, that is exactly when `p + 7 < m < p + 13`; the call changes no driver state. -/
theorem verifyLastPrediction_iff (m : ℚ) (s : SmartUltrasonic) :
    (verifyLastPrediction m s = true
        ↔ |fl32 (fl32 m - fl32 (fl32 s._lastPrediction + 10))| < 3)
    ∧ (fl32 m = m → fl32 s._lastPrediction = s._lastPrediction →
        fl32 (s._lastPrediction + 10) = s._lastPrediction + 10 →
        fl32 (m - (s._lastPrediction + 10)) = m - (s._lastPrediction + 10) →
        (verifyLastPrediction m s = true
          ↔ s._lastPrediction + 7 < m ∧ m < s._lastPrediction + 13))
    ∧ step (Op.verifyLastPrediction m) s = s := by
  have h1 : verifyLastPrediction m s = true
      ↔ |fl32 (fl32 m - fl32 (fl32 s._lastPrediction + 10))| < 3 := by
    unfold verifyLastPrediction
    simp
  refine ⟨h1, ?_, rfl⟩
  intro hm hp hs hd
  rw [h1, hm, hp, hs, hd, abs_lt]
  constructor
  · rintro ⟨a, b⟩
    exact ⟨by linarith, by linarith⟩
  · rintro ⟨a, b⟩
    exact ⟨by linarith, by linarith⟩

/-- C15 witness: with last prediction 14, the measurement 24 verifies and the measurements
21 and 27, on the border of the tolerance, do not; no operation rounds. -/
theorem verifyLastPrediction_iff_witness :
    verifyLastPrediction 24 { ctor 9 10 true 0 (fun _ => 0) (fun _ => 0) with
        _lastPrediction := 14 } = true
    ∧ verifyLastPrediction 21 { ctor 9 10 true 0 (fun _ => 0) (fun _ => 0) with
        _lastPrediction := 14 } = false
    ∧ verifyLastPrediction 27 { ctor 9 10 true 0 (fun _ => 0) (fun _ => 0) with
        _lastPrediction := 14 } = false := by
  refine ⟨?_, ?_, ?_⟩
  · rw [(verifyLastPrediction_iff 24 _).2.1 (by decide!) (by decide!) (by decide!) (by decide!)]
    norm_num
  · rw [Bool.eq_false_iff]
    intro h
    have h2 := ((verifyLastPrediction_iff 21 _).2.1 (by decide!) (by decide!) (by decide!)
      (by decide!)).mp h
    norm_num at h2
  · rw [Bool.eq_false_iff]
    intro h
    have h2 := ((verifyLastPrediction_iff 27 _).2.1 (by decide!) (by decide!) (by decide!)
      (by decide!)).mp h
    norm_num at h2

/-- C15 counterexample: `twoShortCycles` holds the last prediction `p = 40131 / 20000`
(2.00655, two cycles of 117 µs extrapolated), as a binary32 value `8416081 / 4194304`; for
the binary32 measurement `m = 3933877 / 262144` the exact test `|m - (p + 10)| < 3` holds,
for `p` and for its binary32 value, yet `verifyLastPrediction m` is false: `p + 10` rounds
down to `3147445 / 262144` and the difference to that is exactly 3. -/
theorem verifyLastPrediction_rounding :
    twoShortCycles._lastPrediction = 40131 / 20000
    ∧ fl32 twoShortCycles._lastPrediction = 8416081 / 4194304
    ∧ fl32 (3933877 / 262144) = 3933877 / 262144
    ∧ |(3933877 / 262144 : ℚ) - (fl32 twoShortCycles._lastPrediction + 10)| < 3
    ∧ |(3933877 / 262144 : ℚ) - (twoShortCycles._lastPrediction + 10)| < 3
    ∧ fl32 (fl32 twoShortCycles._lastPrediction + 10) = 3147445 / 262144
    ∧ fl32 (fl32 (3933877 / 262144) - fl32 (fl32 twoShortCycles._lastPrediction + 10)) = 3
    ∧ verifyLastPrediction (3933877 / 262144) twoShortCycles = false := by
  refine ⟨by decide!, by decide!, by decide!, by decide!, by decide!, by decide!, by decide!,
    by decide!⟩

end SmartUltrasonic
